import Mathlib

/-!
Network diagram (`Major-Assignment-3/network.js`): the data preparation and the
highlight state machine of `simulate`.

The file embeds the pure parts of `simulate(data, svg)`:

* the normalisation of the node fields (lines 7-12),
* the degree table (lines 14-22),
* the country ranking, the colour function and the legend (lines 24-32, 174-194),
* the radius scale (lines 34-37),
* the hover and legend handlers acting on the `inactive` / `active` classes
  (lines 96-107, 178-190),
* `autoZoom` (lines 157-172).

Conventions of the embedding.

* A node field is absent (`undefined`) or a string, as in the input format.
* The object `degree` is a table of own properties under the property access rules of a plain
  object: keys are property keys (`undefined` reads and writes the key `"undefined"`), and
  `__proto__` is the accessor of `Object.prototype`, not a slot.
* Degree counters are natural numbers: a counter is bumped at most twice per link, far below the
  range where a double stops being exact.
* Lengths and scales are in exact arithmetic; a division of a positive number by zero is
  `+Infinity`, kept apart from the rationals.
* The calls into d3 (`rollup`, `scaleOrdinal`, `scaleSqrt`, `max`, `forceLink`, the zoom
  transform) are embedded by what the library computes on the arguments `simulate` passes.
* The DOM is reduced to the class flags the handlers write, one per node, link and legend item.
* A call that throws stops there: what the lines before have done stays (the nodes are prepared
  and coloured, the hover handlers are attached), the lines after are not run.
-/

namespace Network

/-! ## Values -/

/-- A field value: `none` is `undefined` (the field is absent), `some s` is the string `s`. -/
abbrev Val := Option String

/-- JavaScript truthiness on `Val`: `undefined` and the empty string are falsy. -/
def truthy : Val → Bool
  | none => false
  | some s => decide (s ≠ "")

/-- The operator `a || b`: `a` when `a` is truthy, else `b`. -/
def jsOr (a b : Val) : Val := if truthy a then a else b

/-- Property-key conversion (`ToPropertyKey`) of a `Val` used in `degree[k]`. -/
def keyOf : Val → String
  | none => "undefined"
  | some s => s

/-- What a slot of the degree table, and later `n.degree`, can hold:
a counter, `NaN`, `undefined`, or an object (`Object.prototype` or one of its methods). -/
inductive DegVal where
  | num (n : Nat)
  | nan
  | undef
  | object
  deriving DecidableEq, Repr

/-! ## Data model -/

/-- A node object with the fields `simulate` reads or writes. -/
structure Node where
  id : Val := none
  author : Val := none
  Author : Val := none
  country : Val := none
  Country : Val := none
  affiliation : Val := none
  Affiliation : Val := none
  degree : DegVal := DegVal.undef
  deriving DecidableEq, Repr

/-- A link endpoint: a primitive value (`typeof e !== "object"`), normally the id string,
or an object, of which the program reads `.id` and `.country`.  The payload of `obj` holds the
fields of that object as they are when the program reads them. -/
inductive Endpoint where
  | raw (v : Val)
  | obj (n : Node)
  deriving DecidableEq, Repr

/-- A link. -/
structure Link where
  source : Endpoint
  target : Endpoint
  deriving DecidableEq, Repr

/-- The dataset passed to `simulate`. -/
structure Data where
  nodes : List Node
  links : List Link
  deriving DecidableEq, Repr

/-! ## Normalisation (lines 7-12) -/

/-- The body of the first `forEach`: the three assignments, in order. -/
def normalizeNode (n : Node) : Node :=
  let n1 := { n with id := jsOr (jsOr n.id n.author) n.Author }
  let n2 := { n1 with country := jsOr (jsOr n1.country n1.Country) (some "Unknown") }
  { n2 with affiliation := jsOr (jsOr n2.affiliation n2.Affiliation) (some "N/A") }

/-- The loop `data.nodes.forEach(n => ...)` of lines 8-12. -/
def normalize (nodes : List Node) : List Node := nodes.map normalizeNode

/-- The first truthy (non-empty) value of a list of candidates, if there is one. -/
def firstNonEmpty : List Val → Option String
  | [] => none
  | none :: vs => firstNonEmpty vs
  | some s :: vs => if s ≠ "" then some s else firstNonEmpty vs

/-! ## Degree table (lines 14-22) -/

/-- The own properties of the object `degree`. -/
abbrev DegTable := String → Option DegVal

/-- The literal `{}`: no own property. -/
def emptyTable : DegTable := fun _ => none

/-- The assignment `degree[k] = v`.  `__proto__` is the accessor inherited from
`Object.prototype`, whose setter ignores a value that is neither an object nor `null`;
every other key becomes (or updates) an own data property. -/
def DegTable.set (t : DegTable) (k : String) (v : DegVal) : DegTable :=
  if k = "__proto__" then t else fun k' => if k' = k then some v else t k'

/-- Names of the data properties (methods) every object inherits from `Object.prototype`. -/
def inheritedMethods : List String :=
  ["constructor", "hasOwnProperty", "isPrototypeOf", "propertyIsEnumerable",
   "toLocaleString", "toString", "valueOf",
   "__defineGetter__", "__defineSetter__", "__lookupGetter__", "__lookupSetter__"]

/-- The read `degree[k]`: the getter of `__proto__` returns `Object.prototype`; an own
property wins over an inherited method; anything else is `undefined`. -/
def DegTable.get (t : DegTable) (k : String) : DegVal :=
  if k = "__proto__" then DegVal.object
  else match t k with
    | some v => v
    | none => if k ∈ inheritedMethods then DegVal.object else DegVal.undef

/-- The value `x + 1` stored by `x++`: a counter is incremented, everything else
(`NaN`, `undefined`, an object) converts to `NaN`. -/
def incr : DegVal → DegVal
  | DegVal.num n => DegVal.num (n + 1)
  | _ => DegVal.nan

/-- The statement `degree[k]++`. -/
def bump (t : DegTable) (k : String) : DegTable := t.set k (incr (t.get k))

/-- The expression `typeof e === "object" ? e.id : e`. -/
def Endpoint.idOf : Endpoint → Val
  | Endpoint.raw v => v
  | Endpoint.obj n => n.id

/-- Line 16: `data.nodes.forEach(n => degree[n.id] = 0)`. -/
def initDegree (nodes : List Node) : DegTable :=
  nodes.foldl (fun t n => t.set (keyOf n.id) (DegVal.num 0)) emptyTable

/-- Lines 17-21: for each link, `degree[s]++; degree[t]++`. -/
def countLinks (links : List Link) (t : DegTable) : DegTable :=
  links.foldl (fun t l => bump (bump t (keyOf l.source.idOf)) (keyOf l.target.idOf)) t

/-- The table after lines 15-21. -/
def degreeTable (nodes : List Node) (links : List Link) : DegTable :=
  countLinks links (initDegree nodes)

/-- Line 22: `data.nodes.forEach(n => n.degree = degree[n.id])`. -/
def assignDegree (t : DegTable) (nodes : List Node) : List Node :=
  nodes.map (fun n => { n with degree := t.get (keyOf n.id) })

/-- Lines 7-22 of `simulate`: the node list after normalisation and the degree step. -/
def prepare (d : Data) : List Node :=
  let nodes := normalize d.nodes
  assignDegree (degreeTable nodes d.links) nodes

/-- Number of links having the id value `v` as source, plus the number having it as
target (a self-loop counts twice). -/
def incidence (links : List Link) (v : Val) : Nat :=
  (links.filter (fun l => decide (l.source.idOf = v))).length
    + (links.filter (fun l => decide (l.target.idOf = v))).length

/-- The same count taken on property keys, which is what the table sees. -/
def incidenceKey (links : List Link) (k : String) : Nat :=
  (links.filter (fun l => decide (keyOf l.source.idOf = k))).length
    + (links.filter (fun l => decide (keyOf l.target.idOf = k))).length

/-! ## Country ranking (lines 24-29) -/

/-- One step of the grouping loop of `d3.rollup`: `group.push(value)` when the key is
already in the map, `groups.set(key, [value])` (appended, insertion order) otherwise. -/
def groupPush (groups : List (Val × List Node)) (n : Node) : List (Val × List Node) :=
  match groups with
  | [] => [(n.country, [n])]
  | (k, g) :: rest =>
    if k = n.country then (k, g ++ [n]) :: rest else (k, g) :: groupPush rest n

/-- The map of groups built by `d3.rollup(nodes, _, d => d.country)`, in insertion order. -/
def groupByCountry (nodes : List Node) : List (Val × List Node) :=
  nodes.foldl groupPush []

/-- Line 25: `d3.rollup(data.nodes, v => v.length, d => d.country)` as the entry list
`Array.from(countryCount)`. -/
def countryCount (nodes : List Node) : List (Val × Nat) :=
  (groupByCountry nodes).map (fun kg => (kg.1, kg.2.length))

/-- The comparator `(a, b) => b[1] - a[1]` is not positive: `a` may stay before `b`. -/
def byCountDesc (a b : Val × Nat) : Prop := b.2 ≤ a.2

instance : DecidableRel byCountDesc := fun a b => inferInstanceAs (Decidable (b.2 ≤ a.2))

/-- Lines 26-27: `Array.from(countryCount).sort((a, b) => b[1] - a[1])`.  The sort of an array
is stable, so its result is the one of a stable insertion sort. -/
def ranked (nodes : List Node) : List (Val × Nat) :=
  (countryCount nodes).insertionSort byCountDesc

/-- Lines 26-29: the first ten sorted entries, projected to the country. -/
def topCountries (nodes : List Node) : List Val :=
  ((ranked nodes).take 10).map Prod.fst

/-- `countryCount.get(country)`. -/
def countOf (nodes : List Node) (c : Val) : Option Nat :=
  (countryCount nodes).lookup c

/-- Number of nodes of the list whose country is `c`. -/
def members (nodes : List Node) (c : Val) : Nat :=
  (nodes.filter (fun n => decide (n.country = c))).length

/-- The distinct country values of a node list. -/
def distinctCountries (nodes : List Node) : Finset Val :=
  (nodes.map (fun n => n.country)).toFinset

/-! ## Colours and legend (lines 31-32, 174-194) -/

/-- The palette `d3.schemeTableau10`. -/
def schemeTableau10 : List String :=
  ["#4e79a7", "#f28e2c", "#e15759", "#76b7b2", "#59a14f",
   "#edc949", "#af7aa1", "#ff9da7", "#9c755f", "#bab0ab"]

/-- The setter `.domain(values)` of an ordinal scale: the values in order, a value already
registered being skipped. -/
def ordinalDomain (values : List Val) : List Val :=
  values.foldl (fun dom v => if v ∈ dom then dom else dom ++ [v]) []

/-- The index `index.get(d)` of a value in the domain of an ordinal scale; a value not yet
registered is pushed and gets the next free index, the length of the domain. -/
def domainIndex (d : Val) : List Val → Nat
  | [] => 0
  | v :: vs => if v = d then 0 else domainIndex d vs + 1

/-- A call `scale(d)` of `d3.scaleOrdinal(range).domain(values)`: `range[i % range.length]`
with `i` the index of `d` in the domain. -/
def scaleOrdinal (range : List String) (values : List Val) (d : Val) : String :=
  range.getD (domainIndex d (ordinalDomain values) % range.length) ""

/-- Line 31: `colorScale`. -/
def colorScale (top : List Val) (c : Val) : String :=
  scaleOrdinal schemeTableau10 top c

/-- Line 32: `nodeColor`. -/
def nodeColor (top : List Val) (d : Node) : String :=
  if d.country ∈ top then colorScale top d.country else "#999999"

/-- A legend entry: the country of the item, the background of its swatch and the count
printed in its label. -/
structure LegendItem where
  country : Val
  swatch : String
  count : Option Nat
  deriving DecidableEq, Repr

/-! ## Radius scale (lines 34-37) -/

/-- The comparison `max < value` of `d3.max`: true only between two counters. -/
def DegVal.ltMax : Option DegVal → DegVal → Bool
  | some (DegVal.num m), DegVal.num v => decide (m < v)
  | _, _ => false

/-- The comparison `value >= value` of `d3.max`: false for `NaN`. -/
def DegVal.geSelf : DegVal → Bool
  | DegVal.num _ => true
  | DegVal.object => true
  | _ => false

/-- The loop body of `d3.max`. -/
def d3maxStep (max : Option DegVal) (value : DegVal) : Option DegVal :=
  if value ≠ DegVal.undef ∧ (DegVal.ltMax max value ∨ (max = none ∧ DegVal.geSelf value))
  then some value else max

/-- The call `d3.max(values)`; `none` is `undefined`. -/
def d3max (values : List DegVal) : Option DegVal := values.foldl d3maxStep none

/-- Line 36: `d3.max(data.nodes, d => d.degree)`. -/
def maxDegree (nodes : List Node) : Option DegVal := d3max (nodes.map (fun n => n.degree))

/-- The piece `normalize(a, b)` of a continuous scale: `(x - a) / (b - a)`, or the constant
`0.5` on a collapsed domain. -/
def normalizeTo {K : Type} [Field K] [DecidableEq K] (a b x : K) : K :=
  if b - a = 0 then 1 / 2 else (x - a) / (b - a)

/-- The interpolator `interpolateNumber(a, b)`. -/
def interpolateNumber {K : Type} [Field K] (a b t : K) : K := a * (1 - t) + b * t

/-- Lines 35-37: `d3.scaleSqrt().domain([0, m]).range([8, 28])` applied to a counter `x`,
in exact arithmetic over `K`, `sqrt` being the square root on counters. -/
def rScale {K : Type} [Field K] [DecidableEq K] (sqrt : Nat → K) (m x : Nat) : K :=
  interpolateNumber 8 28 (normalizeTo (sqrt 0) (sqrt m) (sqrt x))

/-- The radius `rScale(d.degree)` of a node; `none` is `NaN` (the bound of the domain or the
degree is not a counter). -/
def radius {K : Type} [Field K] [DecidableEq K] (sqrt : Nat → K) (nodes : List Node) (d : Node) :
    Option K :=
  match maxDegree nodes, d.degree with
  | some (DegVal.num m), DegVal.num x => some (rScale sqrt m x)
  | _, _ => none

/-! ## Link resolution by the simulation (line 115) -/

/-- The lookup `nodeById.get(v)` of `d3.forceLink`, where
`nodeById = new Map(nodes.map(d => [d.id, d]))`: of several nodes with one id the map keeps
the last. -/
def nodeById (nodes : List Node) (v : Val) : Option Node :=
  nodes.reverse.find? (fun n => decide (n.id = v))

/-- The statement `if (typeof e !== "object") e = find(nodeById, e)` of `d3.forceLink`;
`find` throws when the map has no node for the id. -/
def resolveEndpoint (nodes : List Node) : Endpoint → Except String Endpoint
  | Endpoint.obj o => Except.ok (Endpoint.obj o)
  | Endpoint.raw v =>
    match nodeById nodes v with
    | some n => Except.ok (Endpoint.obj n)
    | none => Except.error ("node not found: " ++ keyOf v)

/-- What the initialisation loop of `d3.forceLink` leaves behind: `data.links` as mutated in
place, and the error it threw, if any. -/
structure LinkInit where
  links : List Link
  error : Option String
  deriving DecidableEq, Repr

/-- The initialisation loop of `d3.forceLink(data.links).id(d => d.id)`, run when line 115
registers the force: each link in order, source then target.  The loop stops at the first
endpoint `find` throws on; the endpoints handled before keep their resolved value, the others
are left as they were. -/
def forceLinkInit (nodes : List Node) : List Link → LinkInit
  | [] => { links := [], error := none }
  | l :: ls =>
    match resolveEndpoint nodes l.source with
    | Except.error e => { links := l :: ls, error := some e }
    | Except.ok s =>
      match resolveEndpoint nodes l.target with
      | Except.error e => { links := { source := s, target := l.target } :: ls, error := some e }
      | Except.ok t =>
        { links := { source := s, target := t } :: (forceLinkInit nodes ls).links
          error := (forceLinkInit nodes ls).error }

/-- An endpoint of the dataset and what the simulation makes of it: an object stays, an id value
becomes a node object with that id. -/
def Resolves (nodes : List Node) (e e' : Endpoint) : Prop :=
  match e with
  | Endpoint.obj o => e' = Endpoint.obj o
  | Endpoint.raw x => ∃ n, n ∈ nodes ∧ n.id = x ∧ e' = Endpoint.obj n

/-! ## The call `simulate(data, svg)` as a whole -/

/-- The error `simulate` ends with, if any.  On the values of the input format the one statement
that can throw is line 115, where `d3.forceLink` finds no node for an id; the lines after it,
the legend code among them, are then not run. -/
def thrown (d : Data) : Option String := (forceLinkInit (prepare d) d.links).error

/-- The array `data.links` once `simulate` has run: what the handlers see when an event fires. -/
def linksAtEvents (d : Data) : List Link := (forceLinkInit (prepare d) d.links).links

/-- Lines 175-194: the legend items the call creates, one per element of `topCountries`; none
when the call has thrown at line 115, before the legend code. -/
def legendItems (d : Data) : List LegendItem :=
  match thrown d with
  | some _ => []
  | none =>
    (topCountries (prepare d)).map
      (fun c => { country := c, swatch := colorScale (topCountries (prepare d)) c,
                  count := countOf (prepare d) c })

/-- The dataset as a call of `simulate` leaves it, nodes prepared and links resolved: the input of
a second call on the same object. -/
def rendered (d : Data) : Data := { nodes := prepare d, links := linksAtEvents d }

/-! ## Highlight state (lines 96-107, 178-190) -/

/-- The class flags the handlers write: `inactive` on each node group and each link line,
`active` on each legend item, in document order. -/
structure View where
  nodeInactive : List Bool
  linkInactive : List Bool
  legendActive : List Bool
  deriving DecidableEq, Repr

/-- The scene the handlers close over: `data.nodes`, `data.links` as they are when an event
fires, and `topCountries`. -/
structure Scene where
  nodes : List Node
  links : List Link
  top : List Val
  deriving DecidableEq, Repr

/-- The scene built by `simulate(data, svg)`: the prepared nodes, their ranking, and the
links in the form `links` they have when an event fires (as given, or resolved). -/
def sceneWith (d : Data) (links : List Link) : Scene :=
  { nodes := prepare d, links := links, top := topCountries (prepare d) }

/-- The scene `simulate(data, svg)` leaves behind: the prepared nodes, the links as line 115 has
left them, and the countries of the legend items that exist. -/
def sceneOf (d : Data) : Scene :=
  { nodes := prepare d, links := linksAtEvents d
    top := (legendItems d).map (fun it => it.country) }

/-- The state after `simulate` has built the diagram: no class is set. -/
def idle (sc : Scene) : View :=
  { nodeInactive := sc.nodes.map (fun _ => false)
    linkInactive := sc.links.map (fun _ => false)
    legendActive := sc.top.map (fun _ => false) }

/-- The expression
`typeof e === "object" ? e.country : data.nodes.find(n => n.id === e)?.country`. -/
def endpointCountry (nodes : List Node) : Endpoint → Val
  | Endpoint.obj o => o.country
  | Endpoint.raw v =>
    match nodes.find? (fun n => decide (n.id = v)) with
    | some n => n.country
    | none => none

/-- The `mouseenter` handler on the node with datum `d` (lines 97-103). -/
def mouseenter (sc : Scene) (d : Node) (v : View) : View :=
  { v with
    nodeInactive := sc.nodes.map (fun n => decide (n.country ≠ d.country))
    linkInactive := sc.links.map (fun l =>
      decide (endpointCountry sc.nodes l.source ≠ d.country)
        && decide (endpointCountry sc.nodes l.target ≠ d.country)) }

/-- The `mouseleave` handler (lines 104-107). -/
def mouseleave (sc : Scene) (v : View) : View :=
  { v with
    nodeInactive := sc.nodes.map (fun _ => false)
    linkInactive := sc.links.map (fun _ => false) }

/-- Truthiness of `active && test`, where `active` is `null` (`none`) or a country:
the class is set when `active` is truthy and the test holds. -/
def activeAnd (active : Option Val) (test : Val → Bool) : Bool :=
  match active with
  | none => false
  | some c => truthy c && test c

/-- The click handler of the legend item at position `i` (lines 178-190); a position with
no item has no handler. -/
def legendClick (sc : Scene) (i : Nat) (v : View) : View :=
  match sc.top.get? i with
  | none => v
  | some country =>
    let isActive := v.legendActive.getD i false
    let cleared := v.legendActive.map (fun _ => false)
    let active : Option Val := if isActive then none else some country
    { nodeInactive := sc.nodes.map (fun n => activeAnd active (fun a => decide (n.country ≠ a)))
      linkInactive := sc.links.map (fun l => activeAnd active (fun a =>
        decide (endpointCountry sc.nodes l.source ≠ a)
          && decide (endpointCountry sc.nodes l.target ≠ a)))
      legendActive := if isActive then cleared else cleared.set i true }

/-- The pointer events of the highlight state machine; a hover names the position of the
node in `data.nodes`. -/
inductive Event where
  | enter (i : Nat)
  | leave
  | click (i : Nat)
  deriving DecidableEq, Repr

/-- One event. -/
def step (sc : Scene) (v : View) : Event → View
  | Event.enter i =>
    match sc.nodes.get? i with
    | some d => mouseenter sc d v
    | none => v
  | Event.leave => mouseleave sc v
  | Event.click i => legendClick sc i v

/-- A sequence of events from the idle state. -/
def run (sc : Scene) (es : List Event) : View := es.foldl (step sc) (idle sc)

/-- Number of legend items carrying the class `active`. -/
def activeCount (v : View) : Nat := v.legendActive.count true

/-- The invariant of the legend flags: one flag per legend item, at most one of them set. -/
def LegendInv (sc : Scene) (v : View) : Prop :=
  v.legendActive.length = sc.top.length ∧ activeCount v ≤ 1

/-! ## Auto-fit (lines 157-172) -/

/-- The rectangle returned by `getBBox()`. -/
structure BBox where
  x : ℚ
  y : ℚ
  width : ℚ
  height : ℚ

/-- A zoom transform of d3: scale `k` and translation `(x, y)`. -/
structure Transform where
  k : ℚ
  x : ℚ
  y : ℚ

/-- The value `d3.zoomIdentity`. -/
def zoomIdentity : Transform := { k := 1, x := 0, y := 0 }

/-- The method `transform.translate(x, y)`. -/
def Transform.translate (t : Transform) (x y : ℚ) : Transform :=
  { k := t.k, x := t.x + t.k * x, y := t.y + t.k * y }

/-- The method `transform.scale(k)`. -/
def Transform.scale (t : Transform) (k : ℚ) : Transform :=
  { k := t.k * k, x := t.x, y := t.y }

/-- The constant `WIDTH`. -/
def WIDTH : ℚ := 1600

/-- The constant `HEIGHT`. -/
def HEIGHT : ℚ := 1000

/-- The constant `padding` of `autoZoom`. -/
def padding : ℚ := 100

/-- The quotient `a / b` for a positive `a`: `none` is `+Infinity`, the value for `b = 0`. -/
def divPos (a b : ℚ) : Option ℚ := if b = 0 then none else some (a / b)

/-- The function `Math.min` on two arguments, `none` being `+Infinity`. -/
def mathMin : Option ℚ → Option ℚ → Option ℚ
  | none, q => q
  | some p, none => some p
  | some p, some q => some (min p q)

/-- The value `scale` of `autoZoom` for a box of non-zero width. -/
def fitScale (b : BBox) : Option ℚ :=
  mathMin (mathMin (divPos (WIDTH - padding) b.width) (divPos (HEIGHT - padding) b.height))
    (some (9 / 5))

/-- The function `autoZoom`: `none` when it returns at line 159, otherwise the transform handed
to `zoom.transform`. -/
def autoZoom (b : BBox) : Option Transform :=
  if b.width = 0 then none
  else
    match fitScale b with
    | none => none
    | some scale =>
      some (((zoomIdentity.translate (WIDTH / 2) (HEIGHT / 2)).scale scale).translate
        (-(b.x + b.width / 2)) (-(b.y + b.height / 2)))

/-! ## Concrete datasets -/

/-- Three authors given through the three id fields, a link between the first two, a self-loop
and a link whose endpoints are objects. -/
def triangle : Data :=
  { nodes := [{ id := some "ana", country := some "PT" },
              { author := some "bo", Country := some "SE" },
              { Author := some "cy" }]
    links := [{ source := Endpoint.raw (some "ana"), target := Endpoint.raw (some "bo") },
              { source := Endpoint.raw (some "bo"), target := Endpoint.raw (some "bo") },
              { source := Endpoint.obj { id := some "cy", country := some "Unknown" },
                target := Endpoint.obj { id := some "ana", country := some "PT" } }] }

/-- A node without any id field next to a node whose id is the string `"undefined"`. -/
def collidingIds : Data :=
  { nodes := [{}, { id := some "undefined" }]
    links := [{ source := Endpoint.raw (some "undefined"),
                target := Endpoint.raw (some "undefined") }] }

/-- A single node whose id is the string `"__proto__"`, no link. -/
def protoId : Data :=
  { nodes := [{ id := some "__proto__" }], links := [] }

/-- A single node and no link. -/
def isolated : Data :=
  { nodes := [{ id := some "ana", country := some "PT" }], links := [] }

/-- Two nodes sharing the id `"a"` with different countries, and a link from `"a"` to `"b"`. -/
def duplicateIds : Data :=
  { nodes := [{ id := some "a", country := some "X" },
              { id := some "a", country := some "Y" },
              { id := some "b", country := some "Z" }]
    links := [{ source := Endpoint.raw (some "a"), target := Endpoint.raw (some "b") }] }

/-- Fifteen nodes over twelve countries: `c0` has three members, `c1` two, the others one. -/
def fifteen : Data :=
  { nodes := [{ id := some "n0", country := some "c0" }, { id := some "n1", country := some "c0" },
              { id := some "n2", country := some "c0" }, { id := some "n3", country := some "c1" },
              { id := some "n4", country := some "c1" }, { id := some "n5", country := some "c2" },
              { id := some "n6", country := some "c3" }, { id := some "n7", country := some "c4" },
              { id := some "n8", country := some "c5" }, { id := some "n9", country := some "c6" },
              { id := some "n10", country := some "c7" }, { id := some "n11", country := some "c8" },
              { id := some "n12", country := some "c9" }, { id := some "n13", country := some "c10" },
              { id := some "n14", country := some "c11" }]
    links := [] }

/-- Two nodes of two countries and a link whose target `"zed"` is the id of no node. -/
def dangling : Data :=
  { nodes := [{ id := some "ana", country := some "PT" },
              { id := some "bo", country := some "SE" }]
    links := [{ source := Endpoint.raw (some "ana"), target := Endpoint.raw (some "zed") }] }

/-- The nodes of `fifteen` with one link whose target is the id of no node. -/
def fifteenDangling : Data :=
  { nodes := fifteen.nodes
    links := [{ source := Endpoint.raw (some "n0"), target := Endpoint.raw (some "zed") }] }

/-! ## Theorems: normalisation -/

theorem jsOr_eq_first (a b : Val) (s : String) (h : firstNonEmpty [a, b] = some s) :
    jsOr a b = some s := by
  rcases a with _ | a <;> rcases b with _ | b <;>
    (try by_cases ha : a = "") <;> (try by_cases hb : b = "") <;>
    simp_all [firstNonEmpty, jsOr, truthy]

theorem jsOr3_first (a b c : Val) :
    (∀ s, firstNonEmpty [a, b, c] = some s → jsOr (jsOr a b) c = some s)
    ∧ (firstNonEmpty [a, b, c] = none → jsOr (jsOr a b) c = c) := by
  rcases a with _ | a <;> rcases b with _ | b <;> rcases c with _ | c <;>
    (try by_cases ha : a = "") <;> (try by_cases hb : b = "") <;> (try by_cases hc : c = "") <;>
    simp_all [firstNonEmpty, jsOr, truthy]

theorem jsOr_default (a b : Val) (dflt : String) (hd : dflt ≠ "") :
    jsOr (jsOr a b) (some dflt) = some ((firstNonEmpty [a, b]).getD dflt)
    ∧ truthy (jsOr (jsOr a b) (some dflt)) = true := by
  rcases a with _ | a <;> rcases b with _ | b <;>
    (try by_cases ha : a = "") <;> (try by_cases hb : b = "") <;>
    simp_all [firstNonEmpty, jsOr, truthy]

theorem jsOr_idem_left (a b c : Val) : jsOr (jsOr (jsOr (jsOr a b) c) b) c = jsOr (jsOr a b) c := by
  rcases a with _ | a <;> rcases b with _ | b <;> rcases c with _ | c <;>
    (try by_cases ha : a = "") <;> (try by_cases hb : b = "") <;> (try by_cases hc : c = "") <;>
    simp_all [jsOr, truthy]

theorem normalizeNode_idem (n : Node) : normalizeNode (normalizeNode n) = normalizeNode n := by
  have h1 := jsOr_idem_left n.id n.author n.Author
  have h2 := jsOr_idem_left n.country n.Country (some "Unknown")
  have h3 := jsOr_idem_left n.affiliation n.Affiliation (some "N/A")
  simp only [normalizeNode]
  rw [h1, h2, h3]

/-- Claim C7 (normalisation).  For every node whose fields are absent or strings, after the
normalisation `n.id` is the first non-empty value among `id`, `author`, `Author` (when there is
none, it is the value of `Author`), `n.country` is the first non-empty value among `country`,
`Country` and otherwise `"Unknown"`, `n.affiliation` is the first non-empty value among
`affiliation`, `Affiliation` and otherwise `"N/A"`; normalising a node, or a node list, a second
time changes nothing. -/
theorem normalizeNode_fields (n : Node) :
    (∀ s, firstNonEmpty [n.id, n.author, n.Author] = some s → (normalizeNode n).id = some s)
    ∧ (firstNonEmpty [n.id, n.author, n.Author] = none → (normalizeNode n).id = n.Author)
    ∧ (normalizeNode n).country = some ((firstNonEmpty [n.country, n.Country]).getD "Unknown")
    ∧ (normalizeNode n).affiliation
        = some ((firstNonEmpty [n.affiliation, n.Affiliation]).getD "N/A")
    ∧ normalizeNode (normalizeNode n) = normalizeNode n
    ∧ (∀ ns : List Node, normalize (normalize ns) = normalize ns) := by
  refine ⟨(jsOr3_first _ _ _).1, (jsOr3_first _ _ _).2, ?_, ?_, normalizeNode_idem n, ?_⟩
  · exact (jsOr_default n.country n.Country "Unknown" (by decide)).1
  · exact (jsOr_default n.affiliation n.Affiliation "N/A" (by decide)).1
  · intro ns
    simp only [normalize, List.map_map]
    apply List.map_congr_left
    intro m _
    exact normalizeNode_idem m

/-! ## Theorems: degree table -/

theorem set_apply (t : DegTable) (k : String) (v : DegVal) (hk : k ≠ "__proto__") (k' : String) :
    (t.set k v) k' = if k' = k then some v else t k' := by
  simp [DegTable.set, hk]

theorem get_of_own (t : DegTable) (k : String) (v : DegVal) (hk : k ≠ "__proto__")
    (h : t k = some v) : t.get k = v := by
  simp [DegTable.get, hk, h]

theorem bump_apply (t : DegTable) (k : String) (c : Nat) (hk : k ≠ "__proto__")
    (h : t k = some (DegVal.num c)) (k' : String) :
    (bump t k) k' = if k' = k then some (DegVal.num (c + 1)) else t k' := by
  unfold bump
  rw [set_apply _ _ _ hk, get_of_own t k _ hk h]
  rfl

theorem initDegree_foldl (nodes : List Node) (t : DegTable) (k : String)
    (hk : k ≠ "__proto__") :
    (nodes.foldl (fun t n => t.set (keyOf n.id) (DegVal.num 0)) t) k
      = if k ∈ nodes.map (fun n => keyOf n.id) then some (DegVal.num 0) else t k := by
  induction nodes generalizing t with
  | nil => simp
  | cons n ns ih =>
    rw [List.foldl_cons, ih]
    by_cases hmem : k ∈ ns.map (fun n => keyOf n.id)
    · simp [hmem]
    · by_cases hkn : k = keyOf n.id
      · subst hkn
        simp [hmem, set_apply _ _ _ hk]
      · have hne : keyOf n.id ≠ k := fun h => hkn h.symm
        simp only [List.map_cons, List.mem_cons, hkn, hmem, or_self, if_false]
        by_cases hp : keyOf n.id = "__proto__"
        · simp [DegTable.set, hp]
        · rw [set_apply _ _ _ hp]; simp [hkn]

theorem initDegree_apply (nodes : List Node) (k : String) (hk : k ≠ "__proto__")
    (hmem : k ∈ nodes.map (fun n => keyOf n.id)) :
    initDegree nodes k = some (DegVal.num 0) := by
  unfold initDegree
  rw [initDegree_foldl _ _ _ hk, if_pos hmem]

theorem countLinks_apply (K : List String) (hK : ∀ k ∈ K, k ≠ "__proto__")
    (links : List Link)
    (hends : ∀ l ∈ links, keyOf l.source.idOf ∈ K ∧ keyOf l.target.idOf ∈ K)
    (t : DegTable) (c : String → Nat) (ht : ∀ k ∈ K, t k = some (DegVal.num (c k))) :
    ∀ k ∈ K, countLinks links t k = some (DegVal.num (c k + incidenceKey links k)) := by
  induction links generalizing t c with
  | nil => intro k hk; simp [countLinks, incidenceKey, ht k hk]
  | cons l ls ih =>
    intro k hk
    obtain ⟨hs, htg⟩ := hends l (List.mem_cons_self _ _)
    have hs' := hK _ hs
    have ht' := hK _ htg
    have h1 : ∀ k' ∈ K, (bump t (keyOf l.source.idOf)) k'
        = some (DegVal.num (c k' + if keyOf l.source.idOf = k' then 1 else 0)) := by
      intro k' hk'
      rw [bump_apply t _ (c _) hs' (ht _ hs)]
      by_cases e : k' = keyOf l.source.idOf
      · simp [e]
      · have e' : ¬ keyOf l.source.idOf = k' := fun h => e h.symm
        simp [e, e', ht k' hk']
    have h2 : ∀ k' ∈ K, (bump (bump t (keyOf l.source.idOf)) (keyOf l.target.idOf)) k'
        = some (DegVal.num ((c k' + if keyOf l.source.idOf = k' then 1 else 0)
            + if keyOf l.target.idOf = k' then 1 else 0)) := by
      intro k' hk'
      rw [bump_apply _ _ _ ht' (h1 _ htg)]
      by_cases e : k' = keyOf l.target.idOf
      · simp [e]
      · have e' : ¬ keyOf l.target.idOf = k' := fun h => e h.symm
        simp [e, e', h1 k' hk']
    have := ih (fun l' hl' => hends l' (List.mem_cons_of_mem _ hl')) _ _ h2 k hk
    simp only [countLinks, List.foldl_cons] at this ⊢
    rw [this]
    congr 2
    simp only [incidenceKey, List.filter_cons]
    by_cases e1 : keyOf l.source.idOf = k <;> by_cases e2 : keyOf l.target.idOf = k <;>
      simp [e1, e2] <;> omega


theorem keyOf_inj_on_nodes (nodes : List Node)
    (hkeys : (nodes.map (fun n => keyOf n.id)).Nodup) (a b : Node)
    (ha : a ∈ nodes) (hb : b ∈ nodes) (h : keyOf a.id = keyOf b.id) : a.id = b.id := by
  have := List.inj_on_of_nodup_map hkeys ha hb h
  rw [this]

theorem incidenceKey_eq_incidence (nodes : List Node) (links : List Link)
    (hkeys : (nodes.map (fun n => keyOf n.id)).Nodup)
    (hends : ∀ l ∈ links, (∃ n ∈ nodes, n.id = l.source.idOf) ∧ (∃ n ∈ nodes, n.id = l.target.idOf))
    (n : Node) (hn : n ∈ nodes) :
    incidenceKey links (keyOf n.id) = incidence links n.id := by
  unfold incidenceKey incidence
  congr 2
  · apply List.filter_congr
    intro l hl
    obtain ⟨⟨m, hm, hme⟩, _⟩ := hends l hl
    by_cases e : l.source.idOf = n.id
    · simp [e]
    · have : keyOf l.source.idOf ≠ keyOf n.id := by
        intro hk
        rw [← hme] at hk e
        exact e (keyOf_inj_on_nodes nodes hkeys m n hm hn hk)
      simp [e, this]
  · apply List.filter_congr
    intro l hl
    obtain ⟨_, ⟨m, hm, hme⟩⟩ := hends l hl
    by_cases e : l.target.idOf = n.id
    · simp [e]
    · have : keyOf l.target.idOf ≠ keyOf n.id := by
        intro hk
        rw [← hme] at hk e
        exact e (keyOf_inj_on_nodes nodes hkeys m n hm hn hk)
      simp [e, this]

/-- Where the degree table is sound: when the normalised node ids have pairwise distinct
property keys (the id itself, `"undefined"` for a missing id), none of them `"__proto__"`, and
every link endpoint is the id of a node or an object whose id is the id of a node, the degree
step gives every node the number of links with it as source plus the number with it as target.
Outside this range the plain object used as the table miscounts. -/
theorem degree_counts_incident_links (d : Data)
    (hkeys : ((normalize d.nodes).map (fun n => keyOf n.id)).Nodup)
    (hproto : ∀ n ∈ normalize d.nodes, keyOf n.id ≠ "__proto__")
    (hends : ∀ l ∈ d.links, (∃ n ∈ normalize d.nodes, n.id = l.source.idOf)
      ∧ (∃ n ∈ normalize d.nodes, n.id = l.target.idOf)) :
    ∀ n ∈ prepare d, n.degree = DegVal.num (incidence d.links n.id) := by
  intro n hn
  simp only [prepare, assignDegree, List.mem_map] at hn
  obtain ⟨n0, hn0, rfl⟩ := hn
  have hK : ∀ k ∈ (normalize d.nodes).map (fun n => keyOf n.id), k ≠ "__proto__" := by
    intro k hk
    obtain ⟨m, hm, rfl⟩ := List.mem_map.1 hk
    exact hproto m hm
  have hE : ∀ l ∈ d.links, keyOf l.source.idOf ∈ (normalize d.nodes).map (fun n => keyOf n.id)
      ∧ keyOf l.target.idOf ∈ (normalize d.nodes).map (fun n => keyOf n.id) := by
    intro l hl
    obtain ⟨⟨a, ha, hae⟩, ⟨b, hb, hbe⟩⟩ := hends l hl
    exact ⟨List.mem_map.2 ⟨a, ha, by rw [hae]⟩, List.mem_map.2 ⟨b, hb, by rw [hbe]⟩⟩
  have hmem : keyOf n0.id ∈ (normalize d.nodes).map (fun n => keyOf n.id) :=
    List.mem_map.2 ⟨n0, hn0, rfl⟩
  have h := countLinks_apply _ hK d.links hE (initDegree (normalize d.nodes)) (fun _ => 0)
    (fun k hk => initDegree_apply _ k (hK k hk) hk) _ hmem
  show (degreeTable (normalize d.nodes) d.links).get (keyOf n0.id) = _
  have h' : degreeTable (normalize d.nodes) d.links (keyOf n0.id)
      = some (DegVal.num (incidenceKey d.links (keyOf n0.id))) := by
    simpa [degreeTable] using h
  rw [get_of_own _ _ _ (hproto n0 hn0) h', incidenceKey_eq_incidence _ _ hkeys hends n0 hn0]

/-! ## Theorems: country ranking -/

theorem groupPush_keys (G : List (Val × List Node)) (n : Node) :
    (groupPush G n).map Prod.fst
      = if n.country ∈ G.map Prod.fst then G.map Prod.fst else G.map Prod.fst ++ [n.country] := by
  induction G with
  | nil => simp [groupPush]
  | cons kg rest ih =>
    obtain ⟨k, g⟩ := kg
    by_cases hk : k = n.country
    · simp [groupPush, hk]
    · have hk' : ¬ n.country = k := fun h => hk h.symm
      simp only [groupPush, hk, if_false, List.map_cons, ih, List.mem_cons, hk', false_or]
      split_ifs <;> simp

theorem groupPush_lookup (G : List (Val × List Node)) (n : Node) (k : Val) :
    (groupPush G n).lookup k
      = if k = n.country then some ((G.lookup k).getD [] ++ [n]) else G.lookup k := by
  induction G with
  | nil =>
    by_cases hk : k = n.country
    · simp [groupPush, List.lookup, hk]
    · have : (k == n.country) = false := by simp [hk]
      simp [groupPush, List.lookup, hk, this]
  | cons kg rest ih =>
    obtain ⟨k0, g⟩ := kg
    by_cases h0 : k0 = n.country
    · by_cases hk : k = n.country
      · subst h0; subst hk
        simp [groupPush, List.lookup]
      · have : (k == k0) = false := by simp [h0, hk]
        simp [groupPush, List.lookup, h0, hk]
        rw [h0] at this; simp [this]
    · by_cases hkk : k = k0
      · subst hkk
        simp [groupPush, List.lookup, h0]
      · have : (k == k0) = false := by simp [hkk]
        simp [groupPush, List.lookup, h0, this, ih]

theorem groupBy_concat (ns : List Node) (n : Node) :
    groupByCountry (ns ++ [n]) = groupPush (groupByCountry ns) n := by
  simp [groupByCountry, List.foldl_append]

theorem groupBy_keys (ns : List Node) :
    ((groupByCountry ns).map Prod.fst).Nodup
    ∧ ∀ k, k ∈ (groupByCountry ns).map Prod.fst ↔ k ∈ ns.map (fun n => n.country) := by
  induction ns using List.reverseRecOn with
  | nil => simp [groupByCountry]
  | append_singleton ns n ih =>
    rw [groupBy_concat, groupPush_keys]
    obtain ⟨hnd, hmem⟩ := ih
    by_cases h : n.country ∈ (groupByCountry ns).map Prod.fst
    · rw [if_pos h]
      refine ⟨hnd, fun k => ?_⟩
      rw [hmem k]
      simp only [List.map_append, List.mem_append, List.map_cons, List.map_nil, List.mem_singleton]
      constructor
      · exact Or.inl
      · rintro (h' | h')
        · exact h'
        · rw [h']; exact (hmem _).1 h
    · rw [if_neg h]
      refine ⟨?_, fun k => ?_⟩
      · exact List.Nodup.append hnd (List.nodup_singleton _) (by simpa using h)
      · simp only [List.map_append, List.mem_append, List.map_cons, List.map_nil,
          List.mem_singleton, hmem k]

theorem groupBy_lookup (ns : List Node) (k : Val) :
    (groupByCountry ns).lookup k
      = if k ∈ ns.map (fun n => n.country)
        then some (ns.filter (fun n => decide (n.country = k))) else none := by
  induction ns using List.reverseRecOn with
  | nil => simp [groupByCountry, List.lookup]
  | append_singleton ns n ih =>
    rw [groupBy_concat, groupPush_lookup, ih]
    by_cases hk : k = n.country
    · subst hk
      by_cases hm : n.country ∈ ns.map (fun n => n.country)
      · simp [hm, List.filter_append]
      · have : ns.filter (fun m => decide (m.country = n.country)) = [] := by
          rw [List.filter_eq_nil_iff]
          intro m hmm
          simp only [decide_eq_true_eq]
          intro he
          exact hm (List.mem_map.2 ⟨m, hmm, he⟩)
        simp [hm, List.filter_append, this]
    · have hk' : ¬ n.country = k := fun h => hk h.symm
      simp [hk, hk', List.filter_append]

theorem lookup_of_mem_nodup {β : Type} (G : List (Val × β)) (h : (G.map Prod.fst).Nodup)
    (k : Val) (g : β) (hm : (k, g) ∈ G) : G.lookup k = some g := by
  induction G with
  | nil => simp at hm
  | cons kg rest ih =>
    obtain ⟨k0, g0⟩ := kg
    rw [List.map_cons, List.nodup_cons] at h
    rcases List.mem_cons.1 hm with he | hr
    · cases he
      simp [List.lookup]
    · have hne : k ≠ k0 := by
        rintro rfl
        exact h.1 (List.mem_map.2 ⟨(k, g), hr, rfl⟩)
      have : (k == k0) = false := by simp [hne]
      simp [List.lookup, this, ih h.2 hr]

theorem countryCount_keys (ns : List Node) :
    (countryCount ns).map Prod.fst = (groupByCountry ns).map Prod.fst := by
  simp [countryCount, List.map_map, Function.comp_def]

theorem countryCount_members (ns : List Node) (k : Val) (m : Nat)
    (h : (k, m) ∈ countryCount ns) : m = members ns k ∧ k ∈ ns.map (fun n => n.country) := by
  simp only [countryCount, List.mem_map, Prod.mk.injEq] at h
  obtain ⟨⟨k', g⟩, hmem, hk, hm⟩ := h
  simp only at hk hm
  subst hk
  have hl := lookup_of_mem_nodup _ (groupBy_keys ns).1 _ _ hmem
  rw [groupBy_lookup] at hl
  have hin : k' ∈ ns.map (fun n => n.country) :=
    ((groupBy_keys ns).2 k').1 (List.mem_map.2 ⟨(k', g), hmem, rfl⟩)
  rw [if_pos hin] at hl
  cases hl
  exact ⟨hm.symm, hin⟩


theorem byCountDesc_total : IsTotal (Val × Nat) byCountDesc :=
  ⟨fun a b => (Nat.le_total b.2 a.2)⟩

theorem byCountDesc_trans : IsTrans (Val × Nat) byCountDesc :=
  ⟨fun _ _ _ hab hbc => Nat.le_trans hbc hab⟩

theorem ranked_sorted (ns : List Node) : (ranked ns).Pairwise byCountDesc :=
  @List.sorted_insertionSort _ byCountDesc _ byCountDesc_total byCountDesc_trans _

theorem ranked_perm (ns : List Node) : (ranked ns).Perm (countryCount ns) :=
  List.perm_insertionSort _ _

theorem ranked_keys_nodup (ns : List Node) : ((ranked ns).map Prod.fst).Nodup := by
  have h := ((ranked_perm ns).map Prod.fst).nodup_iff
  rw [h, countryCount_keys]
  exact (groupBy_keys ns).1

theorem ranked_members (ns : List Node) (k : Val) (m : Nat) (h : (k, m) ∈ ranked ns) :
    m = members ns k ∧ k ∈ ns.map (fun n => n.country) :=
  countryCount_members ns k m ((ranked_perm ns).mem_iff.1 h)

theorem ranked_length (ns : List Node) : (ranked ns).length = (distinctCountries ns).card := by
  rw [(ranked_perm ns).length_eq, ← List.length_map (countryCount ns) Prod.fst, countryCount_keys,
    ← List.toFinset_card_of_nodup (groupBy_keys ns).1]
  congr 1
  ext k
  simp only [List.mem_toFinset, distinctCountries]
  exact (groupBy_keys ns).2 k

theorem topCountries_eq (ns : List Node) :
    topCountries ns = ((ranked ns).take 10).map Prod.fst := rfl

theorem topCountries_nodup (ns : List Node) : (topCountries ns).Nodup := by
  rw [topCountries_eq]
  exact ((List.take_sublist 10 (ranked ns)).map Prod.fst).nodup (ranked_keys_nodup ns)

theorem topCountries_length (ns : List Node) :
    (topCountries ns).length = min 10 (distinctCountries ns).card := by
  rw [topCountries_eq, List.length_map, List.length_take, ranked_length]

theorem mem_topCountries (ns : List Node) (c : Val) (h : c ∈ topCountries ns) :
    (c, members ns c) ∈ (ranked ns).take 10 := by
  rw [topCountries_eq, List.mem_map] at h
  obtain ⟨⟨k, m⟩, hm, rfl⟩ := h
  have := (ranked_members ns k m (List.mem_of_mem_take hm)).1
  rw [← this]
  exact hm

theorem topCountries_subset (ns : List Node) (c : Val) (h : c ∈ topCountries ns) :
    c ∈ distinctCountries ns := by
  have h1 := List.mem_of_mem_take (mem_topCountries ns c h)
  simpa [distinctCountries] using (ranked_members ns _ _ h1).2

theorem topCountries_sorted (ns : List Node) :
    (topCountries ns).Pairwise (fun a b => members ns b ≤ members ns a) := by
  rw [topCountries_eq, List.pairwise_map]
  have h := (ranked_sorted ns).sublist (List.take_sublist 10 (ranked ns))
  refine h.imp_of_mem ?_
  intro a b ha hb hab
  have ha' := (ranked_members ns a.1 a.2 (List.mem_of_mem_take ha)).1
  have hb' := (ranked_members ns b.1 b.2 (List.mem_of_mem_take hb)).1
  rw [← ha', ← hb']
  exact hab

theorem mem_ranked_of_country (ns : List Node) (c : Val) (h : c ∈ distinctCountries ns) :
    (c, members ns c) ∈ ranked ns := by
  have h1 : c ∈ (ranked ns).map Prod.fst := by
    rw [((ranked_perm ns).map Prod.fst).mem_iff, countryCount_keys, (groupBy_keys ns).2]
    simpa [distinctCountries] using h
  obtain ⟨⟨k, m⟩, hm, rfl⟩ := List.mem_map.1 h1
  have := (ranked_members ns k m hm).1
  rw [← this]
  exact hm

theorem excluded_le_included (ns : List Node) (c : Val) (hc : c ∈ distinctCountries ns)
    (hout : c ∉ topCountries ns) (c' : Val) (hin : c' ∈ topCountries ns) :
    members ns c ≤ members ns c' := by
  have h1 := mem_ranked_of_country ns c hc
  have h2 := mem_topCountries ns c' hin
  have hs := ranked_sorted ns
  rw [← List.take_append_drop 10 (ranked ns)] at hs h1
  rw [List.pairwise_append] at hs
  rcases List.mem_append.1 h1 with h | h
  · exact absurd (by rw [topCountries_eq]; exact List.mem_map.2 ⟨_, h, rfl⟩) hout
  · exact hs.2.2 _ h2 _ h

theorem ordinalDomain_concat (l : List Val) (x : Val) :
    ordinalDomain (l ++ [x])
      = if x ∈ ordinalDomain l then ordinalDomain l else ordinalDomain l ++ [x] := by
  simp [ordinalDomain, List.foldl_append]

theorem groupBy_keys_eq (ns : List Node) :
    (groupByCountry ns).map Prod.fst = ordinalDomain (ns.map (fun n => n.country)) := by
  induction ns using List.reverseRecOn with
  | nil => rfl
  | append_singleton ns n ih =>
    rw [groupBy_concat, groupPush_keys, List.map_append, List.map_cons, List.map_nil,
      ordinalDomain_concat, ih]

theorem members_eq_filter_map (ns : List Node) (k : Val) :
    members ns k = ((ns.map (fun n => n.country)).filter (fun c => decide (c = k))).length := by
  unfold members
  rw [List.filter_map, List.length_map]
  rfl

theorem countryCount_eq (ns : List Node) :
    countryCount ns
      = (ordinalDomain (ns.map (fun n => n.country))).map (fun k => (k, members ns k)) := by
  rw [← groupBy_keys_eq, List.map_map]
  unfold countryCount
  apply List.map_congr_left
  intro kg hkg
  have hmem : (kg.1, kg.2.length) ∈ countryCount ns :=
    List.mem_map.2 ⟨kg, hkg, rfl⟩
  have := (countryCount_members ns _ _ hmem).1
  simp only [Function.comp_apply]
  rw [this]

theorem topCountries_of_countries (ns ns' : List Node)
    (h : ns'.map (fun n => n.country) = ns.map (fun n => n.country)) :
    topCountries ns' = topCountries ns := by
  have hc : countryCount ns' = countryCount ns := by
    rw [countryCount_eq, countryCount_eq, h]
    apply List.map_congr_left
    intro k _
    rw [members_eq_filter_map, members_eq_filter_map, h]
  unfold topCountries ranked
  rw [hc]

/-- Claim C2 (top-country ranking).  For every list of nodes, `topCountries` has no duplicates,
has length `min 10 k` with `k` the number of distinct country values, holds only countries of
the nodes, has non-increasing member counts along the sequence, and no country left out of it has
more members than a country in it.  The sequence is a function of the node list: the same list,
and even any list with the same sequence of country values, gives the same sequence. -/
theorem topCountries_ranking (ns : List Node) :
    (topCountries ns).Nodup
    ∧ (topCountries ns).length = min 10 (distinctCountries ns).card
    ∧ (∀ c ∈ topCountries ns, c ∈ distinctCountries ns)
    ∧ (topCountries ns).Pairwise (fun a b => members ns b ≤ members ns a)
    ∧ (∀ c ∈ distinctCountries ns, c ∉ topCountries ns →
        ∀ c' ∈ topCountries ns, members ns c ≤ members ns c')
    ∧ (∀ ns' : List Node, ns' = ns → topCountries ns' = topCountries ns)
    ∧ (∀ ns' : List Node, ns'.map (fun n => n.country) = ns.map (fun n => n.country) →
        topCountries ns' = topCountries ns) :=
  ⟨topCountries_nodup ns, topCountries_length ns, topCountries_subset ns, topCountries_sorted ns,
    excluded_le_included ns, fun _ h => by rw [h], fun ns' h => topCountries_of_countries ns ns' h⟩

/-! ## Theorems: colours and legend -/

theorem ordinalDomain_foldl_nodup (l acc : List Val) (h : (acc ++ l).Nodup) :
    l.foldl (fun dom v => if v ∈ dom then dom else dom ++ [v]) acc = acc ++ l := by
  induction l generalizing acc with
  | nil => simp
  | cons a l ih =>
    have ha : a ∉ acc := by
      intro hmem
      have := List.nodup_append.1 h
      exact this.2.2 hmem (List.mem_cons_self _ _) 
    rw [List.foldl_cons, if_neg ha, ih _ (by simpa using h)]
    simp

theorem ordinalDomain_of_nodup (l : List Val) (h : l.Nodup) : ordinalDomain l = l := by
  have := ordinalDomain_foldl_nodup l [] (by simpa using h)
  simpa [ordinalDomain] using this

theorem palette_not_gray (i : Nat) (h : i < 10) : schemeTableau10.getD i "" ≠ "#999999" := by
  interval_cases i <;> decide

theorem scaleOrdinal_palette_ne_gray (values : List Val) (c : Val) :
    colorScale values c ≠ "#999999" := by
  unfold colorScale scaleOrdinal
  exact palette_not_gray _ (Nat.mod_lt _ (by decide))

theorem nodeColor_gray_iff (top : List Val) (n : Node) :
    nodeColor top n = "#999999" ↔ n.country ∉ top := by
  unfold nodeColor
  by_cases h : n.country ∈ top
  · simp [h, scaleOrdinal_palette_ne_gray]
  · simp [h]

theorem domainIndex_get (l : List Val) (hnd : l.Nodup) (i : Nat) (hi : i < l.length) :
    domainIndex (l.get ⟨i, hi⟩) l = i := by
  induction l generalizing i with
  | nil => simp at hi
  | cons a l ih =>
    rw [List.nodup_cons] at hnd
    cases i with
    | zero => simp [domainIndex]
    | succ j =>
      have hj : j < l.length := by simpa using hi
      have hne : a ≠ l.get ⟨j, hj⟩ := by
        intro h
        exact hnd.1 (h ▸ List.get_mem l j hj)
      simp only [List.get_cons_succ, domainIndex, if_neg hne]
      rw [ih hnd.2 j hj]

theorem colorScale_getElem (top : List Val) (hnd : top.Nodup) (hlen : top.length ≤ 10)
    (i : Nat) (hi : i < top.length) :
    colorScale top (top.get ⟨i, hi⟩) = schemeTableau10.getD i "" := by
  unfold colorScale scaleOrdinal
  rw [ordinalDomain_of_nodup top hnd]
  rw [domainIndex_get top hnd i hi]
  have : schemeTableau10.length = 10 := rfl
  rw [this, Nat.mod_eq_of_lt (by omega)]

theorem palette_nodup : schemeTableau10.Nodup := by decide


theorem groupPush_sum (G : List (Val × List Node)) (n : Node) :
    ((groupPush G n).map (fun kg => kg.2.length)).sum
      = (G.map (fun kg => kg.2.length)).sum + 1 := by
  induction G with
  | nil => simp [groupPush]
  | cons kg rest ih =>
    obtain ⟨k, g⟩ := kg
    by_cases hk : k = n.country
    · simp [groupPush, hk]; omega
    · simp [groupPush, hk, ih]; omega

theorem countryCount_sum (ns : List Node) : ((countryCount ns).map Prod.snd).sum = ns.length := by
  have h : ((countryCount ns).map Prod.snd) = (groupByCountry ns).map (fun kg => kg.2.length) := by
    simp [countryCount, List.map_map, Function.comp_def]
  rw [h]
  clear h
  induction ns using List.reverseRecOn with
  | nil => simp [groupByCountry]
  | append_singleton ns n ih => rw [groupBy_concat, groupPush_sum, ih]; simp

theorem ranked_sum (ns : List Node) : ((ranked ns).map Prod.snd).sum = ns.length := by
  rw [((ranked_perm ns).map Prod.snd).sum_eq, countryCount_sum]

theorem members_pos (ns : List Node) (c : Val) (hc : c ∈ distinctCountries ns) :
    1 ≤ members ns c := by
  simp only [distinctCountries, List.mem_toFinset, List.mem_map] at hc
  obtain ⟨n, hn, rfl⟩ := hc
  unfold members
  apply List.length_pos_of_mem (a := n)
  simp [List.mem_filter, hn]

theorem mem_drop_of_excluded (ns : List Node) (c : Val) (hc : c ∈ distinctCountries ns)
    (hout : c ∉ topCountries ns) : (c, members ns c) ∈ (ranked ns).drop 10 := by
  have h1 := mem_ranked_of_country ns c hc
  rw [← List.take_append_drop 10 (ranked ns)] at h1
  rcases List.mem_append.1 h1 with h | h
  · exact absurd (by rw [topCountries_eq]; exact List.mem_map.2 ⟨_, h, rfl⟩) hout
  · exact h

theorem excluded_single_member (ns : List Node) (hlen : ns.length < 20) (c : Val)
    (hc : c ∈ distinctCountries ns) (hout : c ∉ topCountries ns) : members ns c = 1 := by
  have hpos := members_pos ns c hc
  by_contra hne
  have h2 : 2 ≤ members ns c := by omega
  have hd := mem_drop_of_excluded ns c hc hout
  have hs := ranked_sorted ns
  rw [← List.take_append_drop 10 (ranked ns), List.pairwise_append] at hs
  have hall : ∀ x ∈ ((ranked ns).take 10).map Prod.snd, 2 ≤ x := by
    intro x hx
    obtain ⟨y, hy, rfl⟩ := List.mem_map.1 hx
    have := hs.2.2 y hy _ hd
    exact le_trans h2 this
  have hbig := List.card_nsmul_le_sum _ 2 hall
  have hlt : 10 < (ranked ns).length := by
    have := List.length_pos_of_mem hd
    rw [List.length_drop] at this
    omega
  have htake : (((ranked ns).take 10).map Prod.snd).length = 10 := by
    rw [List.length_map, List.length_take]; omega
  have hsum := ranked_sum ns
  rw [← List.take_append_drop 10 (ranked ns), List.map_append, List.sum_append] at hsum
  rw [htake] at hbig
  simp only [smul_eq_mul] at hbig
  omega

theorem all_in_top_of_few (ns : List Node) (hfew : (distinctCountries ns).card ≤ 10)
    (n : Node) (hn : n ∈ ns) : n.country ∈ topCountries ns := by
  have hc : n.country ∈ distinctCountries ns := by
    simp only [distinctCountries, List.mem_toFinset, List.mem_map]
    exact ⟨n, hn, rfl⟩
  have h := mem_ranked_of_country ns _ hc
  rw [topCountries_eq, List.take_of_length_le (by rw [ranked_length]; exact hfew)]
  exact List.mem_map.2 ⟨_, h, rfl⟩

theorem excluded_card (ns : List Node) :
    (distinctCountries ns \ (topCountries ns).toFinset).card
      = (distinctCountries ns).card - min 10 (distinctCountries ns).card := by
  rw [Finset.card_sdiff, List.toFinset_card_of_nodup (topCountries_nodup ns),
    topCountries_length]
  intro c hc
  exact topCountries_subset ns c (List.mem_toFinset.1 hc)

theorem countOf_top (ns : List Node) (c : Val) (hc : c ∈ topCountries ns) :
    countOf ns c = some (members ns c) := by
  have h1 := List.mem_of_mem_take (mem_topCountries ns c hc)
  have h2 := (ranked_perm ns).mem_iff.1 h1
  have hnd : ((countryCount ns).map Prod.fst).Nodup := by
    rw [countryCount_keys]; exact (groupBy_keys ns).1
  exact lookup_of_mem_nodup _ hnd _ _ h2

/-! ## Theorems: radius scale -/

theorem d3max_foldl_num (vals : List DegVal) (init : Option DegVal) (m : Nat)
    (h : vals.foldl d3maxStep init = some (DegVal.num m)) :
    (init = none ∨ ∃ m0, init = some (DegVal.num m0) ∧ m0 ≤ m)
    ∧ ∀ x, DegVal.num x ∈ vals → x ≤ m := by
  induction vals generalizing init with
  | nil =>
    simp only [List.foldl_nil] at h
    subst h
    exact ⟨Or.inr ⟨m, rfl, le_refl _⟩, by simp⟩
  | cons v vs ih =>
    rw [List.foldl_cons] at h
    obtain ⟨hinit, hall⟩ := ih _ h
    rcases init with _ | i
    · refine ⟨Or.inl rfl, ?_⟩
      intro x hx
      rcases List.mem_cons.1 hx with hx | hx
      · subst hx
        simp [d3maxStep, DegVal.ltMax, DegVal.geSelf] at hinit
        exact hinit
      · exact hall x hx
    · cases i with
      | num m0 =>
        cases v with
        | num x0 =>
          by_cases hlt : m0 < x0
          · simp [d3maxStep, DegVal.ltMax, hlt] at hinit
            refine ⟨Or.inr ⟨m0, rfl, by omega⟩, ?_⟩
            intro x hx
            rcases List.mem_cons.1 hx with hx | hx
            · cases hx; exact hinit
            · exact hall x hx
          · simp [d3maxStep, DegVal.ltMax, hlt] at hinit
            refine ⟨Or.inr ⟨m0, rfl, hinit⟩, ?_⟩
            intro x hx
            rcases List.mem_cons.1 hx with hx | hx
            · cases hx; omega
            · exact hall x hx
        | nan =>
          simp [d3maxStep, DegVal.ltMax] at hinit
          exact ⟨Or.inr ⟨m0, rfl, hinit⟩, fun x hx => hall x (by simpa using hx)⟩
        | undef =>
          simp [d3maxStep, DegVal.ltMax] at hinit
          exact ⟨Or.inr ⟨m0, rfl, hinit⟩, fun x hx => hall x (by simpa using hx)⟩
        | object =>
          simp [d3maxStep, DegVal.ltMax] at hinit
          exact ⟨Or.inr ⟨m0, rfl, hinit⟩, fun x hx => hall x (by simpa using hx)⟩
      | nan => cases v <;> simp [d3maxStep, DegVal.ltMax] at hinit
      | undef => cases v <;> simp [d3maxStep, DegVal.ltMax] at hinit
      | object => cases v <;> simp [d3maxStep, DegVal.ltMax] at hinit

theorem degree_le_maxDegree (ns : List Node) (m : Nat)
    (h : maxDegree ns = some (DegVal.num m)) (n : Node) (hn : n ∈ ns) (x : Nat)
    (hx : n.degree = DegVal.num x) : x ≤ m := by
  refine (d3max_foldl_num _ none m h).2 x ?_
  exact List.mem_map.2 ⟨n, hn, hx⟩

section Scale
variable {K : Type} [LinearOrderedField K]

theorem sqrt_mono (sqrt : Nat → K) (hs0 : ∀ n, 0 ≤ sqrt n) (hsq : ∀ n, sqrt n * sqrt n = (n : K))
    (x y : Nat) (h : x ≤ y) : sqrt x ≤ sqrt y := by
  by_contra hlt
  push_neg at hlt
  have h1 : sqrt y * sqrt y < sqrt x * sqrt x :=
    mul_lt_mul'' hlt hlt (hs0 y) (hs0 y)
  rw [hsq, hsq] at h1
  have : (y : K) < (x : K) := h1
  have := Nat.cast_lt.1 this
  omega

theorem sqrt_zero (sqrt : Nat → K) (hsq : ∀ n, sqrt n * sqrt n = (n : K)) : sqrt 0 = 0 := by
  have := hsq 0
  simpa using this

theorem sqrt_pos (sqrt : Nat → K) (hs0 : ∀ n, 0 ≤ sqrt n) (hsq : ∀ n, sqrt n * sqrt n = (n : K))
    (m : Nat) (hm : 0 < m) : 0 < sqrt m := by
  rcases (hs0 m).lt_or_eq with h | h
  · exact h
  · have h1 := hsq m
    rw [← h, mul_zero] at h1
    have h2 : m = 0 := Nat.cast_eq_zero.1 h1.symm
    omega

theorem rScale_eq (sqrt : Nat → K) (hs0 : ∀ n, 0 ≤ sqrt n)
    (hsq : ∀ n, sqrt n * sqrt n = (n : K)) (m : Nat) (hm : 0 < m) (x : Nat) :
    rScale sqrt m x = 8 + 20 * (sqrt x / sqrt m) := by
  have hp := sqrt_pos sqrt hs0 hsq m hm
  unfold rScale interpolateNumber normalizeTo
  rw [sqrt_zero sqrt hsq, sub_zero, sub_zero, if_neg (ne_of_gt hp)]
  ring

theorem rScale_spec (sqrt : Nat → K) (hs0 : ∀ n, 0 ≤ sqrt n)
    (hsq : ∀ n, sqrt n * sqrt n = (n : K)) (m : Nat) (hm : 0 < m) :
    rScale sqrt m 0 = 8 ∧ rScale sqrt m m = 28
    ∧ ∀ x y : Nat, x ≤ y → rScale sqrt m x ≤ rScale sqrt m y := by
  have hp := sqrt_pos sqrt hs0 hsq m hm
  refine ⟨?_, ?_, ?_⟩
  · rw [rScale_eq sqrt hs0 hsq m hm, sqrt_zero sqrt hsq]; simp
  · rw [rScale_eq sqrt hs0 hsq m hm, div_self (ne_of_gt hp)]; norm_num
  · intro x y hxy
    rw [rScale_eq sqrt hs0 hsq m hm, rScale_eq sqrt hs0 hsq m hm]
    have := sqrt_mono sqrt hs0 hsq x y hxy
    have h2 : sqrt x / sqrt m ≤ sqrt y / sqrt m := div_le_div_of_nonneg_right this (le_of_lt hp)
    linarith

theorem rScale_collapsed (sqrt : Nat → K) : rScale sqrt 0 0 = 18 := by
  unfold rScale interpolateNumber normalizeTo
  rw [sub_self, if_pos rfl]
  norm_num

end Scale

/-! ## Theorems: legend invariant -/

theorem count_cleared {α : Type} (l : List α) : (l.map (fun _ => false)).count true = 0 := by
  induction l with
  | nil => rfl
  | cons a l ih =>
    rw [List.map_cons, List.count_cons_of_ne (by decide)]
    exact ih

theorem count_cleared_set {α : Type} (l : List α) (i : Nat) :
    ((l.map (fun _ => false)).set i true).count true ≤ 1 := by
  induction l generalizing i with
  | nil => simp
  | cons a l ih =>
    cases i with
    | zero =>
      rw [List.map_cons, List.set_cons_zero, List.count_cons_self, count_cleared]
    | succ j =>
      rw [List.map_cons, List.set_cons_succ, List.count_cons_of_ne (by decide)]
      exact ih j

theorem getD_cleared {α : Type} (l : List α) (j : Nat) :
    (l.map (fun _ => false)).getD j false = false := by
  induction l generalizing j with
  | nil => simp
  | cons a l ih => cases j <;> simp [ih]

theorem getD_cleared_set {α : Type} (l : List α) (b j : Nat) :
    ((l.map (fun _ => false)).set b true).getD j false = true ↔ (j = b ∧ b < l.length) := by
  induction l generalizing b j with
  | nil => simp
  | cons a l ih =>
    cases b with
    | zero =>
      cases j with
      | zero => simp
      | succ j' =>
        have := getD_cleared l j'
        simp [this]
    | succ b' =>
      cases j with
      | zero => simp
      | succ j' =>
        have := ih b' j'
        simpa using this

theorem getD_unique_of_count_le_one (l : List Bool) (h : l.count true ≤ 1) (a b : Nat)
    (ha : l.getD a false = true) (hb : l.getD b false = true) : a = b := by
  induction l generalizing a b with
  | nil => simp at ha
  | cons x l ih =>
    cases x with
    | true =>
      have h0 : l.count true = 0 := by
        simp [List.count_cons] at h
        exact h
      have hnone : ∀ j, l.getD j false = false := by
        intro j
        by_contra hj
        have hj' : l.getD j false = true := by simpa using hj
        have hmem : true ∈ l := by
          by_cases hlt : j < l.length
          · rw [List.getD_eq_getElem _ _ hlt] at hj'
            exact hj' ▸ List.getElem_mem _ 
          · rw [List.getD_eq_default _ _ (by omega)] at hj'
            cases hj'
        have := List.count_pos_iff.2 hmem
        omega
      cases a with
      | zero =>
        cases b with
        | zero => rfl
        | succ b' =>
          rw [List.getD_cons_succ, hnone b'] at hb
          cases hb
      | succ a' =>
        rw [List.getD_cons_succ, hnone a'] at ha
        cases ha
    | false =>
      have h' : l.count true ≤ 1 := by simpa [List.count_cons] using h
      cases a with
      | zero => simp at ha
      | succ a' =>
        cases b with
        | zero => simp at hb
        | succ b' =>
          have := ih h' a' b' (by simpa using ha) (by simpa using hb)
          rw [this]

theorem legendInv_idle (sc : Scene) : LegendInv sc (idle sc) := by
  refine ⟨by simp [idle], ?_⟩
  simp only [activeCount, idle]
  induction sc.top with
  | nil => simp
  | cons a l ih => simpa [List.count_cons] using ih

theorem legendInv_step (sc : Scene) (v : View) (e : Event) (h : LegendInv sc v) :
    LegendInv sc (step sc v e) := by
  cases e with
  | enter i =>
    simp only [step]
    cases sc.nodes.get? i with
    | none => exact h
    | some d => exact h
  | leave => exact h
  | click i =>
    simp only [step, legendClick]
    cases hget : sc.top.get? i with
    | none => exact h
    | some c =>
      simp only
      by_cases hact : v.legendActive.getD i false = true
      · simp only [hact, if_true]
        refine ⟨by simp [h.1], ?_⟩
        show (v.legendActive.map (fun _ => false)).count true ≤ 1
        rw [count_cleared]
        exact Nat.zero_le _
      · simp only [hact]
        exact ⟨by simp [h.1], count_cleared_set v.legendActive i⟩

theorem legendInv_run (sc : Scene) (es : List Event) : LegendInv sc (run sc es) := by
  unfold run
  induction es using List.reverseRecOn with
  | nil => exact legendInv_idle sc
  | append_singleton es e ih =>
    rw [List.foldl_append]
    exact legendInv_step sc _ e ih

/-! ## Theorems: highlight handlers -/

theorem prepare_country_truthy (d : Data) (n : Node) (hn : n ∈ prepare d) :
    truthy n.country = true := by
  simp only [prepare, assignDegree, normalize, List.mem_map] at hn
  obtain ⟨n1, ⟨n0, _, rfl⟩, rfl⟩ := hn
  exact (jsOr_default n0.country n0.Country "Unknown" (by decide)).2

theorem top_truthy (d : Data) (c : Val) (hc : c ∈ topCountries (prepare d)) :
    truthy c = true := by
  have h := topCountries_subset _ c hc
  simp only [distinctCountries, List.mem_toFinset, List.mem_map] at h
  obtain ⟨n, hn, rfl⟩ := h
  exact prepare_country_truthy d n hn

theorem legendClick_active (sc : Scene) (i : Nat) (v : View) (c : Val)
    (hc : sc.top.get? i = some c) (hact : v.legendActive.getD i false = true) :
    legendClick sc i v =
      { nodeInactive := sc.nodes.map (fun _ => false)
        linkInactive := sc.links.map (fun _ => false)
        legendActive := v.legendActive.map (fun _ => false) } := by
  simp only [legendClick, hc, hact, if_true, activeAnd]

theorem legendClick_fresh (sc : Scene) (i : Nat) (v : View) (c : Val)
    (hc : sc.top.get? i = some c) (hact : v.legendActive.getD i false = false)
    (htr : truthy c = true) :
    legendClick sc i v =
      { nodeInactive := sc.nodes.map (fun n => decide (n.country ≠ c))
        linkInactive := sc.links.map (fun l =>
          decide (endpointCountry sc.nodes l.source ≠ c)
            && decide (endpointCountry sc.nodes l.target ≠ c))
        legendActive := (v.legendActive.map (fun _ => false)).set i true } := by
  unfold legendClick
  rw [hc]
  simp only [hact, Bool.false_eq_true, if_false, activeAnd, htr, Bool.true_and]

/-- Claim C5 (legend toggle-off).  If the legend entry `i` of a top country is marked active,
clicking it again leaves no legend entry marked active and clears the `inactive` flag of every
node and every link; hence clicking an entry twice from the idle state first marks it active and
then returns to the idle state. -/
theorem legendClick_toggle_off (sc : Scene) (i : Nat) (v : View) (hi : i < sc.top.length)
    (hact : v.legendActive.getD i false = true) :
    (∀ j, (legendClick sc i v).legendActive.getD j false = false)
    ∧ (legendClick sc i v).legendActive.length = v.legendActive.length
    ∧ (legendClick sc i v).nodeInactive = sc.nodes.map (fun _ => false)
    ∧ (legendClick sc i v).linkInactive = sc.links.map (fun _ => false)
    ∧ (legendClick sc i (idle sc)).legendActive.getD i false = true
    ∧ legendClick sc i (legendClick sc i (idle sc)) = idle sc := by
  have hc : sc.top.get? i = some (sc.top.get ⟨i, hi⟩) := List.get?_eq_get hi
  have h1 := legendClick_active sc i v _ hc hact
  have hidle : (legendClick sc i (idle sc)).legendActive
      = ((idle sc).legendActive.map (fun _ => false)).set i true := by
    have h0 : (idle sc).legendActive.getD i false = false := by
      simp only [idle]; exact getD_cleared _ _
    simp only [legendClick, hc, h0]
    rfl
  have hlen : i < (idle sc).legendActive.length := by simpa [idle] using hi
  have hact2 : (legendClick sc i (idle sc)).legendActive.getD i false = true := by
    rw [hidle]
    exact (getD_cleared_set _ i i).2 ⟨rfl, hlen⟩
  refine ⟨?_, ?_, ?_, ?_, hact2, ?_⟩
  · intro j; rw [h1]; exact getD_cleared _ _
  · rw [h1]; simp
  · rw [h1]
  · rw [h1]
  · rw [legendClick_active sc i _ _ hc hact2, hidle]
    simp [idle]

/-- Claim C10 (hover against legend filter).  In every state `v`, whatever its legend
selection, a pointer-leave clears the `inactive` flag of every node and link and leaves the
legend flags unchanged; a pointer-enter on a node leaves the legend flags unchanged and sets
the `inactive` flags from the country of that node alone, the same from any two states. -/
theorem hover_ignores_legend (sc : Scene) (d : Node) (v w : View) :
    (mouseleave sc v).legendActive = v.legendActive
    ∧ (mouseleave sc v).nodeInactive = sc.nodes.map (fun _ => false)
    ∧ (mouseleave sc v).linkInactive = sc.links.map (fun _ => false)
    ∧ (mouseenter sc d v).legendActive = v.legendActive
    ∧ (mouseenter sc d v).nodeInactive = (mouseenter sc d w).nodeInactive
    ∧ (mouseenter sc d v).linkInactive = (mouseenter sc d w).linkInactive
    ∧ (mouseenter sc d v).nodeInactive = sc.nodes.map (fun n => decide (n.country ≠ d.country))
    ∧ (∀ i, i < sc.nodes.length →
        (step sc v (Event.enter i)).nodeInactive = (step sc w (Event.enter i)).nodeInactive
        ∧ (step sc v (Event.enter i)).linkInactive = (step sc w (Event.enter i)).linkInactive
        ∧ (step sc v (Event.enter i)).legendActive = v.legendActive)
    ∧ (step sc v Event.leave).legendActive = v.legendActive := by
  refine ⟨rfl, rfl, rfl, rfl, rfl, rfl, rfl, ?_, rfl⟩
  intro i hi
  have hc : sc.nodes.get? i = some (sc.nodes.get ⟨i, hi⟩) := List.get?_eq_get hi
  simp only [step, hc]
  exact ⟨rfl, rfl, rfl⟩

theorem nodeById_eq_find (ns : List Node) (h : (ns.map (fun n => n.id)).Nodup) (v : Val) :
    nodeById ns v = ns.find? (fun n => decide (n.id = v)) := by
  unfold nodeById
  induction ns with
  | nil => rfl
  | cons a l ih =>
    rw [List.map_cons, List.nodup_cons] at h
    rw [List.reverse_cons, List.find?_append, ih h.2]
    by_cases ha : a.id = v
    · have hnone : l.find? (fun n => decide (n.id = v)) = none := by
        rw [List.find?_eq_none]
        intro x hx
        simp only [decide_eq_true_eq]
        intro hxv
        exact h.1 (List.mem_map.2 ⟨x, hx, by rw [hxv, ha]⟩)
      rw [hnone]
      simp [List.find?, ha]
    · simp [List.find?, ha]

theorem resolveEndpoint_country (ns : List Node) (h : (ns.map (fun n => n.id)).Nodup)
    (e e' : Endpoint) (hr : resolveEndpoint ns e = Except.ok e') :
    endpointCountry ns e' = endpointCountry ns e := by
  cases e with
  | obj o =>
    simp only [resolveEndpoint] at hr
    cases hr
    rfl
  | raw v =>
    simp only [resolveEndpoint] at hr
    rw [nodeById_eq_find ns h] at hr
    simp only [endpointCountry]
    cases hf : ns.find? (fun n => decide (n.id = v)) with
    | none => rw [hf] at hr; cases hr
    | some n =>
      rw [hf] at hr
      cases hr
      rfl

theorem resolveEndpoint_ok (ns : List Node) (e : Endpoint)
    (he : ∀ v, e = Endpoint.raw v → ∃ n ∈ ns, n.id = v) :
    ∃ e', resolveEndpoint ns e = Except.ok e' := by
  cases e with
  | obj o => exact ⟨_, rfl⟩
  | raw v =>
    obtain ⟨n, hn, hv⟩ := he v rfl
    simp only [resolveEndpoint, nodeById]
    cases hf : ns.reverse.find? (fun n => decide (n.id = v)) with
    | none =>
      rw [List.find?_eq_none] at hf
      exact absurd (by simpa using hv) (hf n (List.mem_reverse.2 hn))
    | some m => exact ⟨_, rfl⟩

theorem endpointCountry_raw_iff (ns : List Node) (h : (ns.map (fun n => n.id)).Nodup)
    (v c : Val) (hc : c ≠ none) :
    endpointCountry ns (Endpoint.raw v) = c ↔ ∃ n ∈ ns, n.id = v ∧ n.country = c := by
  simp only [endpointCountry]
  cases hf : ns.find? (fun n => decide (n.id = v)) with
  | none =>
    rw [List.find?_eq_none] at hf
    constructor
    · intro h0; exact absurd h0.symm hc
    · rintro ⟨n, hn, hv, _⟩
      exact absurd (by simpa using hv) (hf n hn)
  | some m =>
    have hm := List.mem_of_find?_eq_some hf
    have hmv : m.id = v := by simpa using List.find?_some hf
    constructor
    · intro h0; exact ⟨m, hm, hmv, h0⟩
    · rintro ⟨n, hn, hv, hcn⟩
      have : n = m := List.inj_on_of_nodup_map h hn hm (by rw [hv, hmv])
      rw [← this]; exact hcn

/-! ## Theorems: degree table at concrete inputs, radius scale, legend selection -/

/-- Claim C1 (degree computation), the code at the failing inputs.  Both datasets meet the
hypotheses of the claim: the normalised ids are pairwise distinct and every link endpoint is the
id of a node.  In `protoId` the only node has the id `"__proto__"`: the assignment
`degree[n.id] = 0` of line 16 is swallowed by the prototype accessor and the node gets an object
as its degree, where the claim says 0.  In `collidingIds` the ids `undefined` and `"undefined"`
share the slot `degree["undefined"]`: the node without id gets degree 2 with no incident link. -/
theorem degree_key_collision :
    (((normalize collidingIds.nodes).map (fun n => n.id)).Nodup
      ∧ (∀ l ∈ collidingIds.links,
          (∃ n ∈ normalize collidingIds.nodes, n.id = l.source.idOf)
          ∧ (∃ n ∈ normalize collidingIds.nodes, n.id = l.target.idOf))
      ∧ (prepare collidingIds).map (fun n => (n.id, n.degree, incidence collidingIds.links n.id))
          = [(none, DegVal.num 2, 0), (some "undefined", DegVal.num 2, 2)]
      ∧ ¬ (∀ n ∈ prepare collidingIds,
            n.degree = DegVal.num (incidence collidingIds.links n.id)))
    ∧ (((normalize protoId.nodes).map (fun n => n.id)).Nodup
      ∧ (∀ l ∈ protoId.links,
          (∃ n ∈ normalize protoId.nodes, n.id = l.source.idOf)
          ∧ (∃ n ∈ normalize protoId.nodes, n.id = l.target.idOf))
      ∧ (prepare protoId).map (fun n => (n.id, n.degree, incidence protoId.links n.id))
          = [(some "__proto__", DegVal.object, 0)]
      ∧ ¬ (∀ n ∈ prepare protoId, n.degree = DegVal.num (incidence protoId.links n.id))) := by
  decide

/-- The dataset `triangle` is in the range where the degree table is sound, and its degrees are
the incidence counts. -/
theorem degree_counts_incident_links_witness :
    ((normalize triangle.nodes).map (fun n => keyOf n.id)).Nodup
    ∧ (∀ n ∈ normalize triangle.nodes, keyOf n.id ≠ "__proto__")
    ∧ (∀ l ∈ triangle.links, (∃ n ∈ normalize triangle.nodes, n.id = l.source.idOf)
        ∧ (∃ n ∈ normalize triangle.nodes, n.id = l.target.idOf))
    ∧ (∀ n ∈ prepare triangle, n.degree = DegVal.num (incidence triangle.links n.id)) :=
  ⟨by decide, by decide, by decide,
    degree_counts_incident_links triangle (by decide) (by decide) (by decide)⟩

/-- Claim C4, as amended (radius scale).  For every dataset whose largest degree `maxDegree` is
a positive counter `m`, in exact arithmetic (`sqrt` the non-negative square root on counters)
`rScale 0 = 8`, `rScale m = 28`, `rScale` is monotonic non-decreasing in the degree, and every
node whose degree is a counter `x` has `x ≤ m` and the radius `rScale x`. -/
theorem rScale_on_positive_maxDegree {K : Type} [LinearOrderedField K] (sqrt : Nat → K)
    (hs0 : ∀ n, 0 ≤ sqrt n) (hsq : ∀ n, sqrt n * sqrt n = (n : K)) (d : Data) (m : Nat)
    (hmax : maxDegree (prepare d) = some (DegVal.num m)) (hpos : 0 < m) :
    rScale sqrt m 0 = 8 ∧ rScale sqrt m m = 28
    ∧ (∀ x y : Nat, x ≤ y → rScale sqrt m x ≤ rScale sqrt m y)
    ∧ (∀ n ∈ prepare d, ∀ x : Nat, n.degree = DegVal.num x →
        x ≤ m ∧ radius sqrt (prepare d) n = some (rScale sqrt m x)) := by
  obtain ⟨h0, h1, hmono⟩ := rScale_spec sqrt hs0 hsq m hpos
  refine ⟨h0, h1, hmono, ?_⟩
  intro n hn x hx
  refine ⟨degree_le_maxDegree _ m hmax n hn x hx, ?_⟩
  simp only [radius, hmax, hx]

/-- Claim C4, instance: over the reals with the real square root, on the dataset `triangle`,
whose largest degree is 3. -/
theorem rScale_on_positive_maxDegree_witness :
    maxDegree (prepare triangle) = some (DegVal.num 3) ∧ 0 < 3
    ∧ rScale (fun n : Nat => Real.sqrt n) 3 0 = 8
    ∧ rScale (fun n : Nat => Real.sqrt n) 3 3 = 28 := by
  have h := rScale_on_positive_maxDegree (fun n : Nat => Real.sqrt n)
    (fun n => Real.sqrt_nonneg _) (fun n => Real.mul_self_sqrt (Nat.cast_nonneg n))
    triangle 3 (by decide) (by decide)
  exact ⟨by decide, by decide, h.1, h.2.1⟩

/-- Claim C4, counterexample to the claim as stated.  The dataset `isolated` is non-empty and
has no link, so `maxDegree` is 0 and the domain `[0, 0]` is collapsed: the scale is the constant
18, neither 8 nor 28; and whatever the radius function, it cannot take both the value 8 and the
value 28 at the one degree `0 = maxDegree`. -/
theorem rScale_collapsed_domain :
    prepare isolated ≠ []
    ∧ maxDegree (prepare isolated) = some (DegVal.num 0)
    ∧ (∀ sqrt : Nat → ℚ, rScale sqrt 0 0 = 18)
    ∧ (¬ ∃ sqrt : Nat → ℚ, rScale sqrt 0 0 = 8 ∧ rScale sqrt 0 0 = 28)
    ∧ (∀ m : Nat, maxDegree (prepare isolated) = some (DegVal.num m) →
        ¬ ∃ r : Nat → ℚ, r 0 = 8 ∧ r m = 28) := by
  refine ⟨by decide, by decide, fun sqrt => rScale_collapsed sqrt, ?_, ?_⟩
  · rintro ⟨sqrt, h8, _⟩
    rw [rScale_collapsed sqrt] at h8
    norm_num at h8
  · intro m hm
    have h0 : maxDegree (prepare isolated) = some (DegVal.num 0) := by decide
    rw [h0] at hm
    cases hm
    rintro ⟨r, h8, h28⟩
    rw [h8] at h28
    norm_num at h28

/-- Claim C6 (legend selection invariant).  In every state reached from the idle state by any
sequence of events, legend clicks included, at most one legend entry is marked active; and
clicking entry `b`, of country `B`, while a different entry `a` is active makes `b` the only
active entry, the inactive nodes being exactly those whose country is not `B` and the inactive
links exactly those neither of whose endpoints has country `B`. -/
theorem legend_single_selection (d : Data) (links : List Link) (es : List Event) :
    activeCount (run (sceneWith d links) es) ≤ 1
    ∧ ∀ a b : Nat, a ≠ b →
        (run (sceneWith d links) es).legendActive.getD a false = true →
        ∀ B : Val, (topCountries (prepare d)).get? b = some B →
          (∀ j, (legendClick (sceneWith d links) b
                  (run (sceneWith d links) es)).legendActive.getD j false = true ↔ j = b)
          ∧ activeCount (legendClick (sceneWith d links) b (run (sceneWith d links) es)) ≤ 1
          ∧ (legendClick (sceneWith d links) b (run (sceneWith d links) es)).nodeInactive
              = (prepare d).map (fun n => decide (n.country ≠ B))
          ∧ (legendClick (sceneWith d links) b (run (sceneWith d links) es)).linkInactive
              = links.map (fun l =>
                  decide (endpointCountry (prepare d) l.source ≠ B)
                    && decide (endpointCountry (prepare d) l.target ≠ B)) := by
  have hinv := legendInv_run (sceneWith d links) es
  refine ⟨hinv.2, ?_⟩
  intro a b hab ha B hB
  have hBmem : B ∈ topCountries (prepare d) := List.get?_mem hB
  have hblt : b < (topCountries (prepare d)).length := by
    by_contra hge
    rw [List.get?_eq_none.2 (by omega)] at hB
    cases hB
  have hb : (run (sceneWith d links) es).legendActive.getD b false = false := by
    by_contra hne
    have hbt : (run (sceneWith d links) es).legendActive.getD b false = true := by
      simpa using hne
    exact hab (getD_unique_of_count_le_one _ hinv.2 a b ha hbt)
  have hclick := legendClick_fresh (sceneWith d links) b (run (sceneWith d links) es) B hB hb
    (top_truthy d B hBmem)
  have hinv2 := legendInv_step (sceneWith d links) _ (Event.click b) hinv
  refine ⟨?_, hinv2.2, ?_, ?_⟩
  · intro j
    rw [hclick]
    show ((List.map (fun _ => false) (run (sceneWith d links) es).legendActive).set b true).getD
      j false = true ↔ j = b
    rw [getD_cleared_set]
    constructor
    · exact fun h => h.1
    · intro h
      refine ⟨h, ?_⟩
      rw [hinv.1]
      exact hblt
  · rw [hclick]; rfl
  · rw [hclick]; rfl

/-! ## Theorems: auto-fit -/

theorem autoZoom_of_scale (b : BBox) (hw : b.width ≠ 0) (s : ℚ) (hs : fitScale b = some s) :
    autoZoom b = some { k := s, x := 1600 / 2 - s * (b.x + b.width / 2),
                        y := 1000 / 2 - s * (b.y + b.height / 2) } := by
  unfold autoZoom
  rw [if_neg hw, hs]
  simp only [Transform.translate, Transform.scale, zoomIdentity, WIDTH, HEIGHT, Option.some.injEq,
    Transform.mk.injEq]
  refine ⟨by ring, by ring, by ring⟩

theorem fitScale_flat (b : BBox) (hw : b.width ≠ 0) (hh : b.height = 0) :
    fitScale b = some (min ((1600 - 100) / b.width) (9 / 5)) := by
  simp only [fitScale, divPos, if_neg hw, hh, if_true, mathMin, WIDTH, HEIGHT, padding]

theorem fitScale_box (b : BBox) (hw : b.width ≠ 0) (hh : b.height ≠ 0) :
    fitScale b
      = some (min (min ((1600 - 100) / b.width) ((1000 - 100) / b.height)) (9 / 5)) := by
  simp only [fitScale, divPos, if_neg hw, if_neg hh, mathMin, WIDTH, HEIGHT, padding]

/-- Claim C8 (auto-fit).  For every bounding box of width zero `autoZoom` returns without
issuing a transform; for every box of non-zero width it issues a transform whose scale is
`min((1600-100)/width, (1000-100)/height, 1.8)`, the middle term being `+Infinity` and
dropping out when the height is zero, so the scale is never above 1.8. -/
theorem autoZoom_fit (b : BBox) :
    (b.width = 0 → autoZoom b = none)
    ∧ (b.width ≠ 0 →
        ∃ t : Transform, autoZoom b = some t
          ∧ (b.height ≠ 0 →
              t.k = min (min ((1600 - 100) / b.width) ((1000 - 100) / b.height)) (9 / 5))
          ∧ (b.height = 0 → t.k = min ((1600 - 100) / b.width) (9 / 5))
          ∧ t.k ≤ 9 / 5
          ∧ t.x = 1600 / 2 - t.k * (b.x + b.width / 2)
          ∧ t.y = 1000 / 2 - t.k * (b.y + b.height / 2)) := by
  constructor
  · intro hw
    simp [autoZoom, hw]
  · intro hw
    by_cases hh : b.height = 0
    · exact ⟨_, autoZoom_of_scale b hw _ (fitScale_flat b hw hh), fun h => absurd hh h,
        fun _ => rfl, min_le_right _ _, rfl, rfl⟩
    · exact ⟨_, autoZoom_of_scale b hw _ (fitScale_box b hw hh), fun _ => rfl,
        fun h => absurd h hh, min_le_right _ _, rfl, rfl⟩

/-! ## Theorems: worked instances -/

/-- Claim C5, instance: in `triangle`, entry 1 is clicked twice from the idle state. -/
theorem legendClick_toggle_off_witness :
    1 < (sceneOf triangle).top.length
    ∧ (legendClick (sceneOf triangle) 1 (idle (sceneOf triangle))).legendActive.getD 1 false = true
    ∧ (legendClick (sceneOf triangle) 1 (idle (sceneOf triangle))).nodeInactive
        = [true, false, true]
    ∧ (legendClick (sceneOf triangle) 1
        (legendClick (sceneOf triangle) 1 (idle (sceneOf triangle)))).nodeInactive
        = [false, false, false]
    ∧ legendClick (sceneOf triangle) 1
        (legendClick (sceneOf triangle) 1 (idle (sceneOf triangle))) = idle (sceneOf triangle) :=
  ⟨by decide, by decide, by decide,
    (legendClick_toggle_off (sceneOf triangle) 1
      (legendClick (sceneOf triangle) 1 (idle (sceneOf triangle))) (by decide) (by decide)).2.2.1,
    (legendClick_toggle_off (sceneOf triangle) 1
      (legendClick (sceneOf triangle) 1 (idle (sceneOf triangle)))
      (by decide) (by decide)).2.2.2.2.2⟩

/-- Claim C6, instance: in `triangle`, entry 0 is clicked, then entry 1 (country `"SE"`). -/
theorem legend_single_selection_witness :
    (run (sceneWith triangle triangle.links) [Event.click 0]).legendActive.getD 0 false = true
    ∧ (topCountries (prepare triangle)).get? 1 = some (some "SE")
    ∧ (legendClick (sceneWith triangle triangle.links) 1
        (run (sceneWith triangle triangle.links) [Event.click 0])).legendActive
        = [false, true, false]
    ∧ (legendClick (sceneWith triangle triangle.links) 1
        (run (sceneWith triangle triangle.links) [Event.click 0])).nodeInactive
        = (prepare triangle).map (fun n => decide (n.country ≠ some "SE")) :=
  ⟨by decide, by decide, by decide,
    ((legend_single_selection triangle triangle.links [Event.click 0]).2 0 1 (by decide)
      (by decide) (some "SE") (by decide)).2.2.1⟩

/-! ## Theorems: link resolution -/

theorem nodeById_some (ns : List Node) (x : Val) (n : Node) (h : nodeById ns x = some n) :
    n ∈ ns ∧ n.id = x := by
  unfold nodeById at h
  have h1 := List.mem_of_find?_eq_some h
  have h2 := List.find?_some h
  exact ⟨List.mem_reverse.1 h1, by simpa using h2⟩

theorem resolveEndpoint_resolves (ns : List Node) (e e' : Endpoint)
    (h : resolveEndpoint ns e = Except.ok e') : Resolves ns e e' ∧ e'.idOf = e.idOf := by
  cases e with
  | obj o =>
    simp only [resolveEndpoint] at h
    cases h
    exact ⟨rfl, rfl⟩
  | raw x =>
    simp only [resolveEndpoint] at h
    cases hf : nodeById ns x with
    | none => rw [hf] at h; cases h
    | some n =>
      rw [hf] at h
      cases h
      obtain ⟨hn, hid⟩ := nodeById_some ns x n hf
      exact ⟨⟨n, hn, hid, rfl⟩, hid⟩

theorem resolveEndpoint_obj (ns : List Node) (o : Node) :
    resolveEndpoint ns (Endpoint.obj o) = Except.ok (Endpoint.obj o) := rfl

theorem forceLinkInit_length (ns : List Node) (ls : List Link) :
    (forceLinkInit ns ls).links.length = ls.length := by
  induction ls with
  | nil => rfl
  | cons l ls ih =>
    unfold forceLinkInit
    cases resolveEndpoint ns l.source with
    | error e => rfl
    | ok s =>
      cases resolveEndpoint ns l.target with
      | error e => rfl
      | ok t => simp [ih]

theorem forceLinkInit_ids (ns : List Node) (ls : List Link) :
    (forceLinkInit ns ls).links.map (fun l => (l.source.idOf, l.target.idOf))
      = ls.map (fun l => (l.source.idOf, l.target.idOf)) := by
  induction ls with
  | nil => rfl
  | cons l ls ih =>
    unfold forceLinkInit
    cases hs : resolveEndpoint ns l.source with
    | error e => rfl
    | ok s =>
      have h1 := (resolveEndpoint_resolves ns _ _ hs).2
      cases ht : resolveEndpoint ns l.target with
      | error e => simp [h1]
      | ok t =>
        have h2 := (resolveEndpoint_resolves ns _ _ ht).2
        simp [h1, h2, ih]

theorem forceLinkInit_resolves (ns : List Node) (ls : List Link)
    (h : (forceLinkInit ns ls).error = none) :
    List.Forall₂ (fun l l' => Resolves ns l.source l'.source ∧ Resolves ns l.target l'.target)
      ls (forceLinkInit ns ls).links := by
  induction ls with
  | nil => exact List.Forall₂.nil
  | cons l ls ih =>
    unfold forceLinkInit at h ⊢
    cases hs : resolveEndpoint ns l.source with
    | error e => rw [hs] at h; cases h
    | ok s =>
      cases ht : resolveEndpoint ns l.target with
      | error e => rw [hs, ht] at h; cases h
      | ok t =>
        rw [hs, ht] at h
        exact List.Forall₂.cons
          ⟨(resolveEndpoint_resolves ns _ _ hs).1, (resolveEndpoint_resolves ns _ _ ht).1⟩
          (ih h)

theorem forceLinkInit_of_objs (ns : List Node) (ls : List Link)
    (h : ∀ l ∈ ls, (∃ o, l.source = Endpoint.obj o) ∧ (∃ o, l.target = Endpoint.obj o)) :
    forceLinkInit ns ls = { links := ls, error := none } := by
  induction ls with
  | nil => rfl
  | cons l ls ih =>
    obtain ⟨⟨o1, h1⟩, ⟨o2, h2⟩⟩ := h l (List.mem_cons_self _ _)
    have ih' := ih (fun l' hl' => h l' (List.mem_cons_of_mem _ hl'))
    unfold forceLinkInit
    rw [h1, h2, resolveEndpoint_obj, resolveEndpoint_obj, ih']
    cases l
    simp only at h1 h2
    subst h1; subst h2
    rfl

theorem forceLinkInit_objs (ns : List Node) (ls : List Link)
    (h : (forceLinkInit ns ls).error = none) :
    ∀ l ∈ (forceLinkInit ns ls).links,
      (∃ o, l.source = Endpoint.obj o) ∧ (∃ o, l.target = Endpoint.obj o) := by
  have hr := forceLinkInit_resolves ns ls h
  clear h
  generalize (forceLinkInit ns ls).links = ls' at hr
  induction hr with
  | nil => simp
  | cons hab _ ih =>
    intro l hl
    rcases List.mem_cons.1 hl with rfl | hl
    · obtain ⟨h1, h2⟩ := hab
      constructor
      · revert h1
        unfold Resolves
        split
        · intro h1; exact ⟨_, h1⟩
        · rintro ⟨n, _, _, h1⟩; exact ⟨_, h1⟩
      · revert h2
        unfold Resolves
        split
        · intro h2; exact ⟨_, h2⟩
        · rintro ⟨n, _, _, h2⟩; exact ⟨_, h2⟩
    · exact ih l hl

theorem forceLinkInit_ok_iff (ns : List Node) (ls : List Link) :
    (forceLinkInit ns ls).error = none
      ↔ ∀ l ∈ ls, (∀ x, l.source = Endpoint.raw x → ∃ n ∈ ns, n.id = x)
          ∧ (∀ x, l.target = Endpoint.raw x → ∃ n ∈ ns, n.id = x) := by
  constructor
  · intro h
    have hr := forceLinkInit_resolves ns ls h
    clear h
    generalize (forceLinkInit ns ls).links = ls' at hr
    induction hr with
    | nil => simp
    | cons hab _ ih =>
      intro l hl
      rcases List.mem_cons.1 hl with rfl | hl
      · obtain ⟨h1, h2⟩ := hab
        constructor
        · intro x hx
          rw [hx] at h1
          obtain ⟨n, hn, hid, _⟩ := h1
          exact ⟨n, hn, hid⟩
        · intro x hx
          rw [hx] at h2
          obtain ⟨n, hn, hid, _⟩ := h2
          exact ⟨n, hn, hid⟩
      · exact ih l hl
  · intro h
    induction ls with
    | nil => rfl
    | cons l ls ih =>
      obtain ⟨hs, ht⟩ := h l (List.mem_cons_self _ _)
      obtain ⟨s, hs'⟩ := resolveEndpoint_ok ns l.source hs
      obtain ⟨t, ht'⟩ := resolveEndpoint_ok ns l.target ht
      unfold forceLinkInit
      rw [hs', ht']
      exact ih (fun l' hl' => h l' (List.mem_cons_of_mem _ hl'))

theorem forceLinkInit_flags (ns : List Node) (h : (ns.map (fun n => n.id)).Nodup)
    (ls : List Link) (c : Val) :
    (forceLinkInit ns ls).links.map (fun l =>
        decide (endpointCountry ns l.source ≠ c) && decide (endpointCountry ns l.target ≠ c))
      = ls.map (fun l =>
        decide (endpointCountry ns l.source ≠ c) && decide (endpointCountry ns l.target ≠ c)) := by
  induction ls with
  | nil => rfl
  | cons l ls ih =>
    unfold forceLinkInit
    cases hs : resolveEndpoint ns l.source with
    | error e => rfl
    | ok s =>
      have h1 := resolveEndpoint_country ns h _ _ hs
      cases ht : resolveEndpoint ns l.target with
      | error e => simp [h1]
      | ok t =>
        have h2 := resolveEndpoint_country ns h _ _ ht
        simp only [List.map_cons, h1, h2, ih]

/-! ## Theorems: a second call on the rendered dataset -/

theorem normalizeNode_degree (n : Node) (x : DegVal) :
    normalizeNode { n with degree := x } = { normalizeNode n with degree := x } := rfl

theorem normalize_prepare (d : Data) : normalize (prepare d) = prepare d := by
  simp only [prepare, assignDegree, normalize, List.map_map]
  apply List.map_congr_left
  intro n _
  simp only [Function.comp_apply]
  rw [normalizeNode_degree, normalizeNode_idem]

theorem prepare_ids (d : Data) :
    (prepare d).map (fun n => n.id) = (normalize d.nodes).map (fun n => n.id) := by
  simp only [prepare, assignDegree, List.map_map]
  rfl

theorem initDegree_of_ids (ns ns' : List Node)
    (h : ns.map (fun n => n.id) = ns'.map (fun n => n.id)) : initDegree ns = initDegree ns' := by
  have key : ∀ l : List Node, initDegree l
      = (l.map (fun n => n.id)).foldl (fun t v => t.set (keyOf v) (DegVal.num 0)) emptyTable := by
    intro l
    unfold initDegree
    rw [List.foldl_map]
  rw [key, key, h]

theorem countLinks_of_ids (ls ls' : List Link) (t : DegTable)
    (h : ls.map (fun l => (l.source.idOf, l.target.idOf))
      = ls'.map (fun l => (l.source.idOf, l.target.idOf))) :
    countLinks ls t = countLinks ls' t := by
  have key : ∀ l : List Link, countLinks l t
      = (l.map (fun l => (l.source.idOf, l.target.idOf))).foldl
          (fun t p => bump (bump t (keyOf p.1)) (keyOf p.2)) t := by
    intro l
    unfold countLinks
    rw [List.foldl_map]
  rw [key, key, h]

theorem prepare_rendered (d : Data) : prepare (rendered d) = prepare d := by
  have hT : degreeTable (normalize (prepare d)) (linksAtEvents d)
      = degreeTable (normalize d.nodes) d.links := by
    unfold degreeTable
    rw [normalize_prepare, initDegree_of_ids _ _ (prepare_ids d)]
    exact countLinks_of_ids _ _ _ (forceLinkInit_ids _ _)
  show assignDegree (degreeTable (normalize (prepare d)) (linksAtEvents d))
      (normalize (prepare d)) = prepare d
  rw [hT, normalize_prepare]
  simp only [prepare, assignDegree, List.map_map]
  rfl

theorem rendered_stable (d : Data) (h : thrown d = none) :
    prepare (rendered d) = prepare d
    ∧ thrown (rendered d) = none
    ∧ linksAtEvents (rendered d) = linksAtEvents d
    ∧ legendItems (rendered d) = legendItems d
    ∧ sceneOf (rendered d) = sceneOf d := by
  have hp := prepare_rendered d
  have hobj := forceLinkInit_objs (prepare d) d.links h
  have hinit : forceLinkInit (prepare (rendered d)) (rendered d).links
      = { links := linksAtEvents d, error := none } := by
    rw [hp]
    exact forceLinkInit_of_objs (prepare d) (linksAtEvents d) hobj
  have ht : thrown (rendered d) = none := by
    unfold thrown; rw [hinit]
  have hl : linksAtEvents (rendered d) = linksAtEvents d := by
    unfold linksAtEvents; rw [hinit]; rfl
  have hleg : legendItems (rendered d) = legendItems d := by
    unfold legendItems; rw [ht, h, hp]
  refine ⟨hp, ht, hl, hleg, ?_⟩
  unfold sceneOf
  rw [hp, hl, hleg]

/-! ## Theorems: colours, legend and hover on the scene of a call -/

theorem legendItems_of_ok (d : Data) (h : thrown d = none) :
    legendItems d = (topCountries (prepare d)).map
      (fun c => { country := c, swatch := colorScale (topCountries (prepare d)) c,
                  count := countOf (prepare d) c }) := by
  unfold legendItems
  rw [h]

theorem legendItems_of_thrown (d : Data) (e : String) (h : thrown d = some e) :
    legendItems d = [] := by
  unfold legendItems
  rw [h]

theorem legendItems_countries (d : Data) (h : thrown d = none) :
    (legendItems d).map (fun it => it.country) = topCountries (prepare d) := by
  rw [legendItems_of_ok d h]
  simp [List.map_map, Function.comp_def]

theorem legendItems_labels (d : Data) (it : LegendItem) (h : it ∈ legendItems d) :
    it.swatch = colorScale (topCountries (prepare d)) it.country
    ∧ it.count = some (members (prepare d) it.country) := by
  cases ht : thrown d with
  | some e => rw [legendItems_of_thrown d e ht] at h; cases h
  | none =>
    rw [legendItems_of_ok d ht, List.mem_map] at h
    obtain ⟨c, hc, rfl⟩ := h
    exact ⟨rfl, countOf_top _ c hc⟩

/-- Claim C3, as amended (node colour and legend).  For every dataset and every node `n`,
`nodeColor n` is `"#999999"` exactly when `n.country` is not in `topCountries`, and otherwise
is the palette colour of the position of `n.country` in `topCountries`; with at most 10 distinct
countries no node is gray; with 15 nodes over 12 distinct countries the gray nodes are exactly
the nodes of the 2 excluded countries, which have the fewest members.  The legend is built only
when the call does not throw at line 115, that is when every id endpoint of a link is the id of
a node: then it has one entry per element of `topCountries`, with its colour and member count,
and 10 entries in the scenario of 15 nodes over 12 countries; otherwise it has no entry. -/
theorem nodeColor_top_or_gray (d : Data) :
    (∀ n : Node, nodeColor (topCountries (prepare d)) n = "#999999"
        ↔ n.country ∉ topCountries (prepare d))
    ∧ (∀ n : Node, n.country ∈ topCountries (prepare d) →
        nodeColor (topCountries (prepare d)) n
          = colorScale (topCountries (prepare d)) n.country)
    ∧ (∀ (i : Nat) (hi : i < (topCountries (prepare d)).length),
        colorScale (topCountries (prepare d)) ((topCountries (prepare d)).get ⟨i, hi⟩)
          = schemeTableau10.getD i "")
    ∧ (thrown d = none
        ↔ ∀ l ∈ d.links, (∀ x, l.source = Endpoint.raw x → ∃ n ∈ prepare d, n.id = x)
            ∧ (∀ x, l.target = Endpoint.raw x → ∃ n ∈ prepare d, n.id = x))
    ∧ (thrown d = none →
        (legendItems d).map (fun it => it.country) = topCountries (prepare d))
    ∧ (∀ e, thrown d = some e → legendItems d = [])
    ∧ (∀ it ∈ legendItems d,
        it.swatch = colorScale (topCountries (prepare d)) it.country
        ∧ it.count = some (members (prepare d) it.country))
    ∧ ((distinctCountries (prepare d)).card ≤ 10 →
        ∀ n ∈ prepare d, nodeColor (topCountries (prepare d)) n ≠ "#999999")
    ∧ ((prepare d).length = 15 → (distinctCountries (prepare d)).card = 12 →
        (thrown d = none → (legendItems d).length = 10)
        ∧ ∃ c₁ c₂ : Val, c₁ ≠ c₂
          ∧ (∀ c, (c ∈ distinctCountries (prepare d) ∧ c ∉ topCountries (prepare d))
              ↔ (c = c₁ ∨ c = c₂))
          ∧ (∀ n ∈ prepare d, nodeColor (topCountries (prepare d)) n = "#999999"
              ↔ (n.country = c₁ ∨ n.country = c₂))
          ∧ (∀ c ∈ distinctCountries (prepare d),
              members (prepare d) c₁ ≤ members (prepare d) c
              ∧ members (prepare d) c₂ ≤ members (prepare d) c)) := by
  refine ⟨nodeColor_gray_iff _, ?_, ?_, forceLinkInit_ok_iff _ _, legendItems_countries d,
    legendItems_of_thrown d, legendItems_labels d, ?_, ?_⟩
  · intro n hn
    simp [nodeColor, hn]
  · intro i hi
    exact colorScale_getElem _ (topCountries_nodup _)
      (by rw [topCountries_length]; exact min_le_left _ _) i hi
  · intro hfew n hn hgray
    exact (nodeColor_gray_iff _ n).1 hgray (all_in_top_of_few _ hfew n hn)
  · intro hlen hcard
    have hex := excluded_card (prepare d)
    rw [hcard] at hex
    have hex2 : (distinctCountries (prepare d) \ (topCountries (prepare d)).toFinset).card = 2 := by
      rw [hex]; rfl
    obtain ⟨c₁, c₂, hne, hset⟩ := Finset.card_eq_two.1 hex2
    have hiff : ∀ c, (c ∈ distinctCountries (prepare d) ∧ c ∉ topCountries (prepare d))
        ↔ (c = c₁ ∨ c = c₂) := by
      intro c
      have := Finset.ext_iff.1 hset c
      simpa [Finset.mem_sdiff] using this
    refine ⟨?_, c₁, c₂, hne, hiff, ?_, ?_⟩
    · intro hok
      have := congrArg List.length (legendItems_countries d hok)
      rw [List.length_map, topCountries_length, hcard] at this
      rw [this]; rfl
    · intro n hn
      rw [nodeColor_gray_iff, ← hiff]
      constructor
      · intro h
        refine ⟨?_, h⟩
        simp only [distinctCountries, List.mem_toFinset, List.mem_map]
        exact ⟨n, hn, rfl⟩
      · exact fun h => h.2
    · intro c hc
      have h1 := (hiff c₁).2 (Or.inl rfl)
      have h2 := (hiff c₂).2 (Or.inr rfl)
      rw [excluded_single_member _ (by omega) c₁ h1.1 h1.2,
        excluded_single_member _ (by omega) c₂ h2.1 h2.2]
      exact ⟨members_pos _ c hc, members_pos _ c hc⟩

/-- Claim C3, counterexample to the claim as stated.  In `dangling` a link points to the id
`"zed"` of no node: the call throws at line 115, before the legend code, so the legend has no
entry although `topCountries` has two elements.  In `fifteenDangling`, 15 nodes over 12 distinct
countries with such a link, the legend has no entry where the claim says 10. -/
theorem legend_missing_on_dangling :
    (thrown dangling = some "node not found: zed"
      ∧ topCountries (prepare dangling) = [some "PT", some "SE"]
      ∧ legendItems dangling = []
      ∧ (legendItems dangling).map (fun it => it.country) ≠ topCountries (prepare dangling))
    ∧ ((prepare fifteenDangling).length = 15
      ∧ (distinctCountries (prepare fifteenDangling)).card = 12
      ∧ legendItems fifteenDangling = []
      ∧ (legendItems fifteenDangling).length ≠ 10) := by
  decide

/-- Claim C3, instance: the dataset `fifteen` has 15 nodes over 12 countries and no link, so
the call does not throw; the nodes of the two countries left out are gray and the legend has
10 entries. -/
theorem nodeColor_top_or_gray_witness :
    (prepare fifteen).length = 15
    ∧ (distinctCountries (prepare fifteen)).card = 12
    ∧ thrown fifteen = none
    ∧ (prepare fifteen).map (nodeColor (topCountries (prepare fifteen)))
        = ["#4e79a7", "#4e79a7", "#4e79a7", "#f28e2c", "#f28e2c", "#e15759", "#76b7b2",
           "#59a14f", "#edc949", "#af7aa1", "#ff9da7", "#9c755f", "#bab0ab",
           "#999999", "#999999"]
    ∧ (legendItems fifteen).length = 10 :=
  ⟨by decide, by decide, by decide, by decide,
    ((nodeColor_top_or_gray fifteen).2.2.2.2.2.2.2.2 (by decide) (by decide)).1 (by decide)⟩

/-- Claim C9 (hover highlight).  For every dataset and every node `N`, after a pointer-enter
on `N` a node is inactive exactly when its country differs from `N.country`, and a link, in the
form it has when the event fires, exactly when the countries of both its endpoints differ from
`N.country`.  When the call has not thrown, every id endpoint of the dataset has been resolved
to a node with that id, and the result is the same for the dataset with id strings and for the
dataset with the resolved node objects: a second call on the rendered dataset leaves the same
scene.  When the node ids are pairwise distinct, the node with an id is unique and the link flags
are also those the handler computes on the id strings themselves. -/
theorem hover_highlight (d : Data) (N : Node) (v : View) :
    (mouseenter (sceneOf d) N v).nodeInactive
        = (prepare d).map (fun n => decide (n.country ≠ N.country))
    ∧ (mouseenter (sceneOf d) N v).linkInactive
        = (linksAtEvents d).map (fun l =>
            decide (endpointCountry (prepare d) l.source ≠ N.country)
              && decide (endpointCountry (prepare d) l.target ≠ N.country))
    ∧ (linksAtEvents d).length = d.links.length
    ∧ (∀ o : Node, endpointCountry (prepare d) (Endpoint.obj o) = o.country)
    ∧ (∀ x : Val, endpointCountry (prepare d) (Endpoint.raw x)
        = ((prepare d).find? (fun n => decide (n.id = x))).bind (fun n => n.country))
    ∧ (thrown d = none →
        List.Forall₂
          (fun l l' => Resolves (prepare d) l.source l'.source
            ∧ Resolves (prepare d) l.target l'.target) d.links (linksAtEvents d)
        ∧ sceneOf (rendered d) = sceneOf d
        ∧ mouseenter (sceneOf (rendered d)) N v = mouseenter (sceneOf d) N v)
    ∧ (((prepare d).map (fun n => n.id)).Nodup →
        (∀ x c : Val, c ≠ none →
          (endpointCountry (prepare d) (Endpoint.raw x) = c
            ↔ ∃ n ∈ prepare d, n.id = x ∧ n.country = c))
        ∧ (mouseenter (sceneOf d) N v).linkInactive
            = (mouseenter (sceneWith d d.links) N v).linkInactive
        ∧ (∀ ls : List Link,
            (mouseenter (sceneWith d (forceLinkInit (prepare d) ls).links) N v).linkInactive
              = (mouseenter (sceneWith d ls) N v).linkInactive)) := by
  refine ⟨rfl, rfl, forceLinkInit_length _ _, fun _ => rfl, ?_, ?_, ?_⟩
  · intro x
    simp only [endpointCountry]
    cases (prepare d).find? (fun n => decide (n.id = x)) <;> rfl
  · intro h
    have hs := (rendered_stable d h).2.2.2.2
    exact ⟨forceLinkInit_resolves _ _ h, hs, by rw [hs]⟩
  · intro hids
    exact ⟨endpointCountry_raw_iff _ hids,
      forceLinkInit_flags (prepare d) hids d.links N.country,
      fun ls => forceLinkInit_flags (prepare d) hids ls N.country⟩

/-- Claim C9, instances.  In `triangle` the call does not throw, and a hover on a node of
country `"PT"` flags the one link between other nodes, before and after a second call.  In
`duplicateIds` the id `"a"` of the link has been resolved to the last node with that id, of
country `"Y"`, so a hover on a node of country `"X"` makes the link inactive. -/
theorem hover_highlight_witness :
    thrown triangle = none
    ∧ (mouseenter (sceneOf triangle) { country := some "PT" } (idle (sceneOf triangle))).linkInactive
        = [false, true, false]
    ∧ mouseenter (sceneOf (rendered triangle)) { country := some "PT" } (idle (sceneOf triangle))
        = mouseenter (sceneOf triangle) { country := some "PT" } (idle (sceneOf triangle))
    ∧ thrown duplicateIds = none
    ∧ (mouseenter (sceneOf duplicateIds) { country := some "X" }
        (idle (sceneOf duplicateIds))).linkInactive = [true] :=
  ⟨by decide, by decide,
    ((hover_highlight triangle { country := some "PT" } (idle (sceneOf triangle))).2.2.2.2.2.1
      (by decide)).2.2,
    by decide, by decide⟩

end Network
